import Mathlib

/-!
PacketRusher, `internal/templates/test-multi-ues-in-queue.go`.

A shallow embedding of `TestMultiUesInQueue`, `imsiGenerator` and `incrementIP`,
followed by the properties proved about them.

Conventions of the embedding.

* A call of `log.Fatal` ends the process: a function that can reach one returns
  an `Outcome α`, where `.fatal msg` is `log.Fatal(msg)` and `.ok v` is a normal
  return of `v`.
* Go's `int` is the 64-bit two's-complement integer: it is an `Int` here, and
  the one addition of the file that can overflow is wrapped by `wrapInt`.
* Strings are lists of characters.  The library routines the file calls
  (`strconv.Atoi`, `fmt.Sprintf("%010d")`, and the parts of package `net` that
  `incrementIP` uses) are embedded next to the code that calls them.
-/

namespace PacketRusher

/-- How a call ends: a normal return, or `log.Fatal(msg)`, which logs `msg` and
exits the process. -/
inductive Outcome (α : Type) where
  | ok (v : α)
  | fatal (msg : String)
  deriving DecidableEq, Repr

/-! ## Decimal text -/

/-- Value of a run of decimal digits read left to right onto the accumulator
`acc`; `none` as soon as a character is not a decimal digit. -/
def digitsValue (acc : Nat) : List Char → Option Nat
  | [] => some acc
  | c :: cs => if c.isDigit then digitsValue (acc * 10 + (c.toNat - 48)) cs else none

/-- Decimal digits of `u`, most significant first, put in front of `acc`: the
digit loop of Go's integer formatting (`for u >= 10 { ... u = u / 10 }`, then
the last digit).  `fuel` bounds the number of digits. -/
def fmtDigits : Nat → Nat → List Char → List Char
  | 0, _, acc => acc
  | fuel + 1, u, acc =>
    if u < 10 then Nat.digitChar u :: acc
    else fmtDigits fuel (u / 10) (Nat.digitChar (u % 10) :: acc)

/-- The decimal numeral of `u` (`strconv.Itoa`, `%d` of a non-negative value). -/
def decimal (u : Nat) : List Char := fmtDigits (u + 1) u []

/-- Left padding with zeros up to `width` characters. -/
def zeroPad (width : Nat) (ds : List Char) : List Char :=
  List.replicate (width - ds.length) '0' ++ ds

/-! ## Machine integers -/

/-- Two's-complement wrap-around of a 64-bit `int`. -/
def wrapInt (x : Int) : Int := (x + 2 ^ 63) % 2 ^ 64 - 2 ^ 63

/-- `strconv.Atoi` on a 64-bit platform: an optional sign, then one or more
decimal digits, the value within the range of `int`; `none` stands for the
returned error (syntax or range). -/
def Atoi (s : String) : Option Int :=
  let signed : Bool := s.toList.head? = some '-' ∨ s.toList.head? = some '+'
  let ds : List Char := if signed then s.toList.tail else s.toList
  if ds = [] then none
  else
    match digitsValue 0 ds with
    | none => none
    | some n =>
      if s.toList.head? = some '-' then (if n ≤ 2 ^ 63 then some (-(n : Int)) else none)
      else (if n < 2 ^ 63 then some (n : Int) else none)

/-- `fmt.Sprintf("%010d", n)`: the decimal digits of `|n|` padded with zeros to
width 10, one column of which is taken by the sign of a negative `n`. -/
def Sprintf_010d (n : Int) : String :=
  if n < 0 then String.mk ('-' :: zeroPad 9 (decimal n.natAbs))
  else String.mk (zeroPad 10 (decimal n.natAbs))

/-! ## `imsiGenerator` -/

/-- Embedding of `imsiGenerator(i, msin)` (source lines 163-173). -/
def imsiGenerator (i : Int) (msin : String) : Outcome String :=
  match Atoi msin with
  | none => .fatal "[UE][CONFIG] Given MSIN is invalid"
  | some msin_int =>
    let base := wrapInt (msin_int + (i - 1))
    .ok (Sprintf_010d base)

/-! ## Package `net`

Addresses are byte slices (`net.IP`); the nil slice is `[]`.  The text parsers
are those of Go 1.17 and later (an IPv4 field with a leading zero is refused).
The parser of the IPv6 text form, `parseIPv6`, is not embedded: it is a
parameter of every definition that reaches it. -/

/-- `net.IPNet`: a network number and its mask. -/
structure IPNet where
  IP : List Nat
  Mask : List Nat
  deriving DecidableEq, Repr

/-- `v4InV6Prefix`: the twelve bytes in front of an IPv4 address held in 16 bytes. -/
def v4InV6Head : List Nat := [0, 0, 0, 0, 0, 0, 0, 0, 0, 0, 0xff, 0xff]

/-- `net.IPv4(a, b, c, d)`: the 16-byte form of the IPv4 address `a.b.c.d`. -/
def IPv4 (a b c d : Nat) : List Nat := v4InV6Head ++ [a, b, c, d]

/-- `IP.To4`: the 4-byte form of an IPv4 address, nil for anything else. -/
def To4 (ip : List Nat) : List Nat :=
  if ip.length = 4 then ip
  else if ip.length = 16 ∧ ip.take 10 = List.replicate 10 0 ∧ ip.getD 10 0 = 0xff
      ∧ ip.getD 11 0 = 0xff then ip.drop 12
  else []

/-- The loop of `dtoi`: `n` is the value so far, `i` the number of characters
consumed; the result is `(n, i, ok)`. -/
def dtoiLoop (n i : Nat) : List Char → Nat × Nat × Bool
  | [] => if i = 0 then (0, 0, false) else (n, i, true)
  | c :: cs =>
    if c.isDigit then
      if n * 10 + (c.toNat - 48) ≥ 0xFFFFFF then (0xFFFFFF, i, false)
      else dtoiLoop (n * 10 + (c.toNat - 48)) (i + 1) cs
    else if i = 0 then (0, 0, false) else (n, i, true)

/-- `dtoi`: decimal to integer; returns number, characters consumed, success. -/
def dtoi (s : List Char) : Nat × Nat × Bool := dtoiLoop 0 0 s

/-- The field loop of `parseIPv4`: `i` is the index of the field to read, `p`
the fields read so far. -/
def parseIPv4Fields : Nat → Nat → List Nat → List Char → List Nat
  | 0, _, p, s => if s.length ≠ 0 then [] else IPv4 (p.getD 0 0) (p.getD 1 0) (p.getD 2 0) (p.getD 3 0)
  | k + 1, i, p, s =>
    if s.length = 0 then []
    else if i > 0 ∧ s.head? ≠ some '.' then []
    else
      let s1 := if i > 0 then s.drop 1 else s
      let r := dtoi s1
      if !r.2.2 ∨ r.1 > 0xFF then []
      else if r.2.1 > 1 ∧ s1.head? = some '0' then []
      else parseIPv4Fields k (i + 1) (p ++ [r.1]) (s1.drop r.2.1)

/-- `parseIPv4`: four decimal fields separated by dots; nil when malformed. -/
def parseIPv4 (s : List Char) : List Nat := parseIPv4Fields 4 0 [] s

/-- The scan of `net.ParseIP` for the first dot or colon. -/
def parseIPScan (parseIPv6 : List Char → List Nat) (s : List Char) : List Char → List Nat
  | [] => []
  | c :: cs =>
    if c = '.' then parseIPv4 s
    else if c = ':' then parseIPv6 s
    else parseIPScan parseIPv6 s cs

/-- `net.ParseIP`: the 16-byte address that the text denotes, nil when it
denotes none. -/
def ParseIP (parseIPv6 : List Char → List Nat) (s : String) : List Nat :=
  parseIPScan parseIPv6 s.toList s.toList

/-- The bytes of `net.CIDRMask(ones, bits)`: `l` bytes are still to be
written, `n` one-bits still to be placed. -/
def cidrMaskBytes : Nat → Nat → List Nat
  | 0, _ => []
  | l + 1, n =>
    if n ≥ 8 then 0xff :: cidrMaskBytes l (n - 8)
    else (255 - 255 / 2 ^ n) :: cidrMaskBytes l 0

/-- `net.CIDRMask(ones, bits)`. -/
def CIDRMask (ones bits : Nat) : List Nat :=
  if bits ≠ 32 ∧ bits ≠ 128 then []
  else if ones > bits then []
  else cidrMaskBytes (bits / 8) ones

/-- `IP.Mask(mask)`: the address with the mask applied, nil on a length mismatch. -/
def IPMask (ip mask : List Nat) : List Nat :=
  let mask1 := if mask.length = 16 ∧ ip.length = 4 ∧ mask.take 12 = List.replicate 12 0xff
    then mask.drop 12 else mask
  let ip1 := if mask1.length = 4 ∧ ip.length = 16 ∧ ip.take 12 = v4InV6Head
    then ip.drop 12 else ip
  if ip1.length ≠ mask1.length then []
  else List.zipWith (fun x m => x &&& m) ip1 mask1

/-- Text before and after the first `/` (`IndexByteString(s, '/')`), `none`
when there is no `/`. -/
def splitSlash : List Char → Option (List Char × List Char)
  | [] => none
  | c :: cs =>
    if c = '/' then some ([], cs)
    else
      match splitSlash cs with
      | none => none
      | some (a, b) => some (c :: a, b)

/-- `net.ParseCIDR`: the network of a text such as `192.0.2.0/24`; `none` stands
for the returned `ParseError`. -/
def ParseCIDR (parseIPv6 : List Char → List Nat) (s : String) : Option IPNet :=
  match splitSlash s.toList with
  | none => none
  | some (addr, mask) =>
    let ip4 := parseIPv4 addr
    let iplen := if ip4 = [] then 16 else 4
    let ip := if ip4 = [] then parseIPv6 addr else ip4
    let r := dtoi mask
    if ip = [] ∨ !r.2.2 ∨ r.2.1 ≠ mask.length ∨ r.1 > 8 * iplen then none
    else
      let m := CIDRMask r.1 (8 * iplen)
      some { IP := IPMask ip m, Mask := m }

/-- `networkNumberAndMask`: network number and mask of matching lengths, nil
twice when the `IPNet` is malformed. -/
def networkNumberAndMask (n : IPNet) : List Nat × List Nat :=
  let ip4 := To4 n.IP
  if ip4 = [] ∧ n.IP.length ≠ 16 then ([], [])
  else
    let ip := if ip4 = [] then n.IP else ip4
    if n.Mask.length = 4 then (if ip.length ≠ 4 then ([], []) else (ip, n.Mask))
    else if n.Mask.length = 16 then (if ip.length = 4 then (ip, n.Mask.drop 12) else (ip, n.Mask))
    else ([], [])

/-- The comparison loop of `IPNet.Contains`, over the bytes of network number,
mask and address at equal positions. -/
def containsLoop : List Nat → List Nat → List Nat → Bool
  | nn :: nns, m :: ms, x :: xs => if nn &&& m ≠ x &&& m then false else containsLoop nns ms xs
  | _, _, _ => true

/-- `IPNet.Contains(ip)`: whether the network includes the address. -/
def Contains (n : IPNet) (ip : List Nat) : Bool :=
  let nm := networkNumberAndMask n
  let x := To4 ip
  let ip1 := if x ≠ [] then x else ip
  if ip1.length ≠ nm.1.length then false
  else containsLoop nm.1 nm.2 ip1

/-- The eight 16-bit groups of a 16-byte address. -/
def groups : List Nat → List Nat
  | hi :: lo :: rest => (hi * 256 + lo) :: groups rest
  | _ => []

/-- Number of zero groups at the front of the list. -/
def zeroRun : List Nat → Nat
  | 0 :: rest => zeroRun rest + 1
  | _ => 0

/-- Start and length of the leftmost longest run of zero groups, the search of
`IP.String`; `best` is the best `(start, length)` so far, `i` the index of the
first group of `gs`. -/
def longestZeroRun (best : Nat × Nat) (i : Nat) : List Nat → Nat × Nat
  | [] => best
  | g :: gs =>
    longestZeroRun (if zeroRun (g :: gs) > best.2 then (i, zeroRun (g :: gs)) else best) (i + 1) gs

/-- `appendHex`: a group in lower-case hexadecimal without leading zeros. -/
def hexGroup (g : Nat) : List Char := Nat.toDigits 16 g

/-- The print loop of the IPv6 form over the groups from index `i` on: the run
of `len ≥ 2` zero groups starting at `e0` is replaced by `::`; `skip` counts
the groups of that run still to pass, and `bare` holds when the next group
printed directly follows the `::`, so takes no colon of its own. -/
def printGroups (e0 len : Nat) : Nat → Nat → Bool → List Nat → List Char
  | _, _, _, [] => []
  | i, skip + 1, _, _ :: gs => printGroups e0 len (i + 1) skip true gs
  | i, 0, bare, g :: gs =>
    if len ≥ 2 ∧ i = e0 then ':' :: ':' :: printGroups e0 len (i + 1) (len - 1) true gs
    else (if i > 0 ∧ !bare then [':'] else []) ++ hexGroup g
      ++ printGroups e0 len (i + 1) 0 false gs

/-- `IP.String`: dotted decimal for an IPv4 address, the IPv6 text form for
other 16-byte addresses. -/
def ipString (ip : List Nat) : String :=
  if ip.length = 0 then "<nil>"
  else if (To4 ip).length = 4 then
    String.mk (decimal ((To4 ip).getD 0 0) ++ '.' :: decimal ((To4 ip).getD 1 0) ++ '.' ::
      decimal ((To4 ip).getD 2 0) ++ '.' :: decimal ((To4 ip).getD 3 0))
  else if ip.length ≠ 16 then
    String.mk ('?' :: ip.flatMap (fun b => [Nat.digitChar (b / 16), Nat.digitChar (b % 16)]))
  else
    let run := longestZeroRun (0, 0) 0 (groups ip)
    String.mk (printGroups run.1 run.2 0 0 false (groups ip))

/-! ## `incrementIP` -/

/-- The carry loop of `incrementIP` on the bytes taken last to first
(`ip[i]++; if ip[i] != 0 { break }`): a byte is incremented modulo 256 and the
loop goes on to the byte before it while the result is 0. -/
def incrementLoop : List Nat → List Nat
  | [] => []
  | b :: rest => if (b + 1) % 256 ≠ 0 then (b + 1) % 256 :: rest else (b + 1) % 256 :: incrementLoop rest

/-- Embedding of `incrementIP(origIP, cidr)` (source lines 175-191).  The
result `.ok (s, none)` is `return s, nil`, and `.ok (origIP, some err)` is the
early `return origIP, err`. -/
def incrementIP (parseIPv6 : List Char → List Nat) (origIP cidr : String) :
    Outcome (String × Option String) :=
  let ip := ParseIP parseIPv6 origIP
  match ParseCIDR parseIPv6 cidr with
  | none => .ok (origIP, some ("invalid CIDR address: " ++ cidr))
  | some ipNet =>
    let ip1 := (incrementLoop ip.reverse).reverse
    if !Contains ipNet ip1 then .fatal "[GNB][CONFIG] gNB IP Address is not in N2/N3 subnet"
    else .ok (ipString ip1, none)

/-! ## The endpoint actor

The goroutine started for one endpoint (source lines 107-142).  What it sends
on its mailbox `ueChan` is recorded in send order; the states are those that
successive calls of `ue.WaitOnStateMM()` return.  The constant
`context.MM5G_REGISTERED` of the endpoint runtime is a parameter. -/

/-- `procedures.UeTesterMessage`, by its `Type`. -/
inductive UeTesterMessage where
  | Registration
  | NewPDUSession
  | Terminate
  deriving DecidableEq, Repr

/-- The goroutine of one endpoint: the messages it has sent on `ueChan` so far
and its local flag `pduStarted`. -/
structure Actor where
  sent : List UeTesterMessage
  pduStarted : Bool
  deriving DecidableEq, Repr

/-- The goroutine up to its observation loop: it has told the endpoint to
register (`ueChan <- Registration`) and `pduStarted := false`. -/
def actorStart : Actor := { sent := [.Registration], pduStarted := false }

/-- `for i := 0; i < numPduSessions; i++ { ueChan <- NewPDUSession }`, with
`remaining` iterations to go. -/
def pduLoop : Nat → List UeTesterMessage → List UeTesterMessage
  | 0, q => q
  | remaining + 1, q => pduLoop remaining (q ++ [.NewPDUSession])

/-- One turn of the observation loop, on the state `state` returned by
`ue.WaitOnStateMM()`. -/
def observe (MM5G_REGISTERED numPduSessions : Int) (a : Actor) (state : Int) : Actor :=
  if state = MM5G_REGISTERED then
    if !a.pduStarted then
      { sent := pduLoop numPduSessions.toNat a.sent, pduStarted := true }
    else a
  else a

/-- The observation loop run over the successive states `states`. -/
def observationLoop (MM5G_REGISTERED numPduSessions : Int) (states : List Int) (a : Actor) :
    Actor :=
  states.foldl (observe MM5G_REGISTERED numPduSessions) a

/-- Number of `NewPDUSession` commands among the messages. -/
def pduCommands (q : List UeTesterMessage) : Nat := q.count .NewPDUSession

/-! ## `TestMultiUesInQueue`

The supervisor is embedded as a function from its parameters and its
environment to the sequence of its effects.  A channel send is recorded when it
completes, that is, when the message has been taken by the receiver. -/

/-- The fields of `config.Config` that the function reads or writes. -/
structure Config where
  GnbId : String
  ControlIfIp : String
  DataIfIp : String
  Msin : String
  TunnelEnabled : Bool
  deriving DecidableEq, Repr

/-- The arguments of `TestMultiUesInQueue`. -/
structure Params where
  numUes : Int
  tunnelEnabled : Bool
  dedicatedGnb : Bool
  loop : Bool
  timeBetweenRegistration : Int
  timeBeforeDeregistration : Int
  numPduSessions : Int

/-- What the function takes from outside itself: the configuration read by
`config.GetConfig()` (`none` when it fails), the identity generator
`gnbIdGenerator` of the package, the IPv6 text parser of package `net`, and for
every poll of `sigStop`, counted from 0, whether a signal is found. -/
structure Env where
  config : Option Config
  gnbIdGenerator : Int → String
  parseIPv6 : List Char → List Nat
  interrupt : Nat → Bool

/-- The effects of the supervisor, in the order of the source. -/
inductive Event where
  /-- `gnb.InitGnb(cfg, &wg)`: station number `station` started with `cfg`. -/
  | initGnb (station : Nat) (cfg : Config)
  /-- `time.Sleep(1 * time.Second)` after the stations. -/
  | settle
  /-- `ueChans[ueId] <- Terminate` on the mailbox `ch`. -/
  | terminate (ueId : Nat) (ch : Nat)
  /-- `ueChans[ueId] = make(chan ...)`, the new mailbox being `ch`. -/
  | makeChan (ueId : Nat) (ch : Nat)
  /-- `go func(currentUeId int) {...}(ueId)`: the actor created by
  `ue.NewUE(ueCfg, uint8(currentUeId), ueChan, gnbs[...], &wg)`. -/
  | spawn (ueId : Nat) (ch : Nat) (ueCfg : Config) (id8 : Nat) (gnb : Option Nat)
  /-- `time.Sleep(timeBetweenRegistration ms)`. -/
  | sleep (ms : Int)
  /-- The non-blocking receive on `sigStop`, and whether it got a signal. -/
  | poll (got : Bool)
  /-- `wg.Wait()`. -/
  | wait
  deriving DecidableEq, Repr

/-- How the run ends: `returned` after `wg.Wait()`, a `log.Fatal`, a runtime
panic, or `looping` when the budget of outer iterations given to the embedding
is used up while the source would go on. -/
inductive Exit where
  | returned
  | fatal (msg : String)
  | panic (msg : String)
  | looping
  deriving DecidableEq, Repr

/-- The local state of the function.  `halted` is set by `log.Fatal` or a
panic, after which nothing more runs. -/
structure Sup where
  cfg : Config
  gnbs : List (String × Nat)
  n2Ip : String
  n3Ip : String
  msin : String
  ueChans : List (Option Nat)
  nextChan : Nat
  stopSignal : Bool
  polls : Nat
  wg : Nat
  trace : List Event
  halted : Option Exit

/-- A run: its effects in order and how it ended. -/
structure Run where
  trace : List Event
  exit : Exit
  deriving DecidableEq, Repr

/-- The three checks at the top of the function (source lines 21-31): the
message of the `log.Fatal` reached, `none` when none is. -/
def preflight (P : Params) : Option String :=
  if P.tunnelEnabled && !P.dedicatedGnb then
    some "You cannot use the --tunnel option, without using the --dedicatedGnb option"
  else if P.tunnelEnabled && decide (P.timeBetweenRegistration < 500) then
    some "When using the --tunnel option, --timeBetweenRegistration must be equal to at least 500 ms, or else gtp5g kernel module may crash if you create tunnels too rapidly."
  else if P.numPduSessions > 16 then
    some "You can't have more than 16 PDU Sessions per UE as per spec."
  else none

/-- `gnbs[id]`, the last station stored under `id`. -/
def lookupGnb (gnbs : List (String × Nat)) (id : String) : Option Nat :=
  (gnbs.find? (fun e => e.1 = id)).map (fun e => e.2)

/-- Body of the station loop for index `i` (source lines 56-66). -/
def buildGnb (E : Env) (i : Nat) (st : Sup) : Sup :=
  let cfg := { st.cfg with GnbId := E.gnbIdGenerator i, ControlIfIp := st.n2Ip, DataIfIp := st.n3Ip }
  let st1 := { st with
    cfg := cfg
    gnbs := (cfg.GnbId, i) :: st.gnbs
    wg := st.wg + 1
    trace := st.trace ++ [Event.initGnb i cfg] }
  match incrementIP E.parseIPv6 st1.n2Ip "0.0.0.0/0" with
  | .fatal msg => { st1 with halted := some (.fatal msg) }
  | .ok (n2, _) =>
    match incrementIP E.parseIPv6 st1.n3Ip "0.0.0.0/0" with
    | .fatal msg => { st1 with n2Ip := n2, halted := some (.fatal msg) }
    | .ok (n3, _) => { st1 with n2Ip := n2, n3Ip := n3 }

/-- `for i := 1; i <= numGnb; i++ { ... }` from index `i` on, with `remaining`
indices to go. -/
def buildGnbs (E : Env) : Nat → Nat → Sup → Sup
  | _, 0, st => st
  | i, remaining + 1, st =>
    let st1 := buildGnb E i st
    match st1.halted with
    | some _ => st1
    | none => buildGnbs E (i + 1) remaining st1

/-- Body of the spawn loop for endpoint `ueId` (source lines 86-151). -/
def spawnUe (P : Params) (E : Env) (ueId : Nat) (st : Sup) : Sup :=
  match imsiGenerator ueId st.msin with
  | .fatal msg => { st with halted := some (.fatal msg) }
  | .ok imsi =>
    let ueCfg0 := { st.cfg with Msin := imsi }
    let ueCfg := if P.dedicatedGnb then { ueCfg0 with GnbId := E.gnbIdGenerator ueId } else ueCfg0
    let trace1 :=
      match st.ueChans.getD ueId none with
      | some old => st.trace ++ [Event.terminate ueId old]
      | none => st.trace
    let ch := st.nextChan
    let got := E.interrupt st.polls
    { st with
      ueChans := st.ueChans.set ueId (some ch)
      nextChan := st.nextChan + 1
      wg := st.wg + 1
      polls := st.polls + 1
      stopSignal := if got then false else st.stopSignal
      trace := trace1 ++ [Event.makeChan ueId ch,
        Event.spawn ueId ch ueCfg (ueId % 256) (lookupGnb st.gnbs ueCfg.GnbId),
        Event.sleep P.timeBetweenRegistration, .poll got] }

/-- `for ueId := 1; stopSignal && ueId <= numUes; ueId++ { ... }` from index
`ueId` on, with `remaining` indices up to `numUes` to go. -/
def spawnLoop (P : Params) (E : Env) : Nat → Nat → Sup → Sup
  | _, 0, st => st
  | ueId, remaining + 1, st =>
    if st.stopSignal then
      let st1 := spawnUe P E ueId st
      match st1.halted with
      | some _ => st1
      | none => spawnLoop P E (ueId + 1) remaining st1
    else st

/-- `for stopSignal { ...; if !loop { break } }` (source lines 82-158), given a
budget of outer iterations; the flag tells whether the loop was left. -/
def outerLoop (P : Params) (E : Env) : Nat → Sup → Sup × Bool
  | 0, st => (st, !st.stopSignal)
  | budget + 1, st =>
    if st.stopSignal then
      let st1 := spawnLoop P E 1 P.numUes.toNat st
      match st1.halted with
      | some _ => (st1, true)
      | none => if !P.loop then (st1, true) else outerLoop P E budget st1
    else (st, true)

/-- The locals on entry to the station loop (source lines 33-54), `cfg` being
the configuration read. -/
def enterStations (cfg : Config) : Sup :=
  { cfg := cfg, gnbs := [], n2Ip := cfg.ControlIfIp, n3Ip := cfg.DataIfIp, msin := cfg.Msin,
    ueChans := [], nextChan := 0, stopSignal := true, polls := 0, wg := 0, trace := [],
    halted := none }

/-- From the station loop to the spawn loop (source lines 71-81): the settle
delay, `msin`, `cfg.Ue.TunnelEnabled`, the mailbox table of `numUes + 1` nil
entries, and `stopSignal := true`. -/
def enterSpawning (P : Params) (st : Sup) : Sup :=
  { st with
    msin := st.cfg.Msin
    cfg := { st.cfg with TunnelEnabled := P.tunnelEnabled }
    ueChans := List.replicate (P.numUes + 1).toNat none
    stopSignal := true
    trace := st.trace ++ [Event.settle] }

/-- The number of stations (source lines 40-45). -/
def numGnb (P : Params) : Int := if P.dedicatedGnb then P.numUes else 1

/-- Embedding of `TestMultiUesInQueue` (source lines 20-161).  `budget` bounds
the number of iterations of the outer loop that are followed. -/
def TestMultiUesInQueue (P : Params) (E : Env) (budget : Nat) : Run :=
  match preflight P with
  | some msg => { trace := [], exit := .fatal msg }
  | none =>
    match E.config with
    | none => { trace := [], exit := .fatal "[TESTER][CONFIG] Unable to read configuration" }
    | some cfg =>
      let st1 := buildGnbs E 1 (numGnb P).toNat (enterStations cfg)
      match st1.halted with
      | some e => { trace := st1.trace, exit := e }
      | none =>
        if P.numUes + 1 < 0 then
          { trace := st1.trace ++ [Event.settle], exit := .panic "makeslice: len out of range" }
        else
          let r := outerLoop P E budget (enterSpawning P st1)
          match r.1.halted with
          | some e => { trace := r.1.trace, exit := e }
          | none =>
            if r.2 then { trace := r.1.trace ++ [Event.wait], exit := .returned }
            else { trace := r.1.trace, exit := .looping }

/-- The address `ip` advanced `j` times by `incrementIP(·, "0.0.0.0/0")`, as
the station loop does; `none` when one of the `j` calls ends in `log.Fatal`. -/
def advance (parseIPv6 : List Char → List Nat) : Nat → String → Option String
  | 0, ip => some ip
  | j + 1, ip =>
    match incrementIP parseIPv6 ip "0.0.0.0/0" with
    | .ok (next, _) => advance parseIPv6 j next
    | .fatal _ => none

/-- The configuration read, with the three fields that the station loop sets
before it starts a station. -/
def stationConfig (cfg : Config) (gnbId n2Ip n3Ip : String) : Config :=
  { cfg with GnbId := gnbId, ControlIfIp := n2Ip, DataIfIp := n3Ip }

/-- The stations started, each with its number and the configuration it was
started with, in the order of the trace. -/
def stations : List Event → List (Nat × Config)
  | [] => []
  | Event.initGnb station cfg :: rest => (station, cfg) :: stations rest
  | _ :: rest => stations rest

/-- The digits of `n` in base ten as characters, most significant first (none
for 0), from the positional digits of Mathlib. -/
def digitChars (n : Nat) : List Char := (Nat.digits 10 n).reverse.map Nat.digitChar

/-- The decimal numeral of `n` padded with zeros on the left to `width`
characters: the rendering that the specification of the identity generator
speaks of. -/
def paddedNumeral (width n : Nat) : String := String.mk (zeroPad width (digitChars n))

/-- The text whose characters are the digits `ds` (each below ten), most
significant first. -/
def digitText (ds : List Nat) : String := String.mk (ds.map Nat.digitChar)

/-- The number that the IPv4 address `a.b.c.d` is, read as a big-endian
integer. -/
def ipv4Value (a b c d : Nat) : Nat := ((a * 256 + b) * 256 + c) * 256 + d

/-- The dotted-decimal text of the IPv4 address `a.b.c.d`. -/
def dotted (a b c d : Nat) : String :=
  String.mk (decimal a ++ '.' :: decimal b ++ '.' :: decimal c ++ '.' :: decimal d)

/-- The dotted-decimal text of the IPv4 address whose number is `v`. -/
def dottedOfValue (v : Nat) : String :=
  dotted (v / 16777216 % 256) (v / 65536 % 256) (v / 256 % 256) (v % 256)

/-- The 16-byte form of the IPv4 address whose number is `v`. -/
def ipv4OfValue (v : Nat) : List Nat :=
  IPv4 (v / 16777216 % 256) (v / 65536 % 256) (v / 256 % 256) (v % 256)

/-- The address `ip` put through `j` successive calls of `incrementIP(·, cidr)`,
each call given what the one before returned. -/
def incrementTimes (parseIPv6 : List Char → List Nat) (cidr : String) :
    Nat → String → Outcome String
  | 0, ip => .ok ip
  | j + 1, ip =>
    match incrementIP parseIPv6 ip cidr with
    | .ok (next, _) => incrementTimes parseIPv6 cidr j next
    | .fatal msg => .fatal msg

/-- A stand-in for `parseIPv6` that is right on the text `::`, the all-zero
address, and refuses every other text. -/
def parseIPv6Unspecified : List Char → List Nat :=
  fun s => if s = [':', ':'] then List.replicate 16 0 else []

/-- A configuration for the worked examples. -/
def sampleConfig : Config :=
  { GnbId := "", ControlIfIp := "10.0.0.5", DataIfIp := "10.1.0.5", Msin := "0000000001",
    TunnelEnabled := false }

/-- An environment for the worked examples: the configuration is `sampleConfig`,
station `i` is named by the numeral of `i`, and a signal is found at exactly
the polls listed in `signals`. -/
def sampleEnv (signals : List Nat) : Env :=
  { config := some sampleConfig
    gnbIdGenerator := fun i => String.mk (decimal i.toNat)
    parseIPv6 := fun _ => []
    interrupt := fun n => decide (n ∈ signals) }

/-- The endpoint indices of the actors started, in the order of the trace. -/
def spawned : List Event → List Nat
  | [] => []
  | Event.spawn ueId _ _ _ _ :: rest => ueId :: spawned rest
  | _ :: rest => spawned rest

/-- The pairs of endpoint index and index given to the endpoint runtime
(`uint8(currentUeId)`), for the actors started, in the order of the trace. -/
def runtimeIds : List Event → List (Nat × Nat)
  | [] => []
  | Event.spawn ueId _ _ id8 _ :: rest => (ueId, id8) :: runtimeIds rest
  | _ :: rest => runtimeIds rest

/-- The mailboxes installed for endpoint `k` (`ueChans[k] = make(...)`), in
the order of the trace. -/
def madeFor (k : Nat) : List Event → List Nat
  | [] => []
  | Event.makeChan ueId ch :: rest => if ueId = k then ch :: madeFor k rest else madeFor k rest
  | _ :: rest => madeFor k rest

/-- The mailboxes on which the supervisor has sent `Terminate`. -/
def terminated : List Event → List Nat
  | [] => []
  | Event.terminate _ ch :: rest => ch :: terminated rest
  | _ :: rest => terminated rest

/-- The mailboxes on which the supervisor has sent `Terminate` as the mailbox
of endpoint `k`. -/
def terminatedFor (k : Nat) : List Event → List Nat
  | [] => []
  | Event.terminate ueId ch :: rest =>
    if ueId = k then ch :: terminatedFor k rest else terminatedFor k rest
  | _ :: rest => terminatedFor k rest

/-- The mailboxes installed for endpoint `k` on which no `Terminate` has been
sent so far. -/
def liveMailboxes (k : Nat) (tr : List Event) : List Nat :=
  (madeFor k tr).filter (fun ch => decide (ch ∉ terminated tr))

/-- The mailboxes installed for endpoint `k` on which no `Terminate` has been
sent as the mailbox of `k`. -/
def liveFor (k : Nat) (tr : List Event) : List Nat :=
  (madeFor k tr).filter (fun ch => decide (ch ∉ terminatedFor k tr))

/-- The discipline of actor starts in a trace: an actor for `k` is started
right after the mailbox it is bound to has been installed for `k`, at a point
where that mailbox had never been installed before and no mailbox of `k` was
live. -/
def SpawnOK (tr : List Event) : Prop :=
  ∀ pre suf k ch cfg id8 g, tr = pre ++ Event.spawn k ch cfg id8 g :: suf →
    ∃ pre1, pre = pre1 ++ [Event.makeChan k ch] ∧ liveFor k pre1 = [] ∧
      ∀ k1, ch ∉ madeFor k1 pre1

/-- The invariant of the supervisor's trace `tr` against its mailbox table `T`
and the next mailbox to allocate `N`. -/
structure TraceInv (tr : List Event) (T : Nat → Option Nat) (N : Nat) : Prop where
  steps : ∀ n k, (liveFor k (tr.take n)).length ≤ 1
  table : ∀ k, liveFor k tr = (T k).toList
  bound : ∀ k ch, ch ∈ madeFor k tr → ch < N
  boundT : ∀ k ch, ch ∈ terminatedFor k tr → ch < N
  spawnOK : SpawnOK tr

/-- A state of the supervisor for the worked examples: one shared station has
been started, three endpoints are to be spawned. -/
def sampleSup : Sup :=
  { cfg := sampleConfig, gnbs := [("1", 1)], n2Ip := "10.0.0.6", n3Ip := "10.1.0.6",
    msin := "0000000001", ueChans := List.replicate 4 none, nextChan := 0, stopSignal := true,
    polls := 0, wg := 1, trace := [], halted := none }

/-! ## Pre-flight validation (C1) -/

/-- C1: whenever tunnelling is asked without a dedicated station, or tunnelling
is asked with less than 500 ms between registrations, or more than 16 sessions
per endpoint are asked, the run ends in `log.Fatal` with the message of a
pre-flight check and with no effect at all (no station started, no actor
spawned), whatever the environment; and when none of the three holds, no
pre-flight check fires. -/
theorem C1_preflight_validation (P : Params) (E : Env) (budget : Nat) :
    (((P.tunnelEnabled = true ∧ P.dedicatedGnb = false) ∨
        (P.tunnelEnabled = true ∧ P.timeBetweenRegistration < 500) ∨
        P.numPduSessions > 16) →
      ∃ msg, preflight P = some msg ∧
        TestMultiUesInQueue P E budget = { trace := [], exit := .fatal msg }) ∧
    (¬ ((P.tunnelEnabled = true ∧ P.dedicatedGnb = false) ∨
        (P.tunnelEnabled = true ∧ P.timeBetweenRegistration < 500) ∨
        P.numPduSessions > 16) →
      preflight P = none) ∧
    (∀ n t d l t1 t2 s, preflight ⟨n, true, false, l, t1, t2, s⟩ ≠ none ∧
      preflight ⟨n, true, d, l, 100, t2, s⟩ ≠ none ∧
      preflight ⟨n, t, d, l, t1, t2, 17⟩ ≠ none) := by
  refine ⟨?_, ?_, ?_⟩
  · intro h
    have hp : ∃ msg, preflight P = some msg := by
      unfold preflight
      rcases h with ⟨h1, h2⟩ | ⟨h1, h2⟩ | h3
      · simp [h1, h2]
      · by_cases hd : P.dedicatedGnb = true <;> simp [h1, h2, hd]
      · by_cases h1 : P.tunnelEnabled = true ∧ P.dedicatedGnb = false
        · simp [h1.1, h1.2]
        · by_cases h2 : P.tunnelEnabled = true ∧ P.timeBetweenRegistration < 500
          · by_cases hd : P.dedicatedGnb = true <;> simp [h2.1, h2.2, hd]
          · have e1 : (P.tunnelEnabled && !P.dedicatedGnb) = false := by
              cases ht : P.tunnelEnabled <;> cases hd : P.dedicatedGnb <;> simp_all
            have e2 : (P.tunnelEnabled && decide (P.timeBetweenRegistration < 500)) = false := by
              cases ht : P.tunnelEnabled <;> simp_all
            simp [e1, e2, h3]
    obtain ⟨msg, hmsg⟩ := hp
    exact ⟨msg, hmsg, by simp [TestMultiUesInQueue, hmsg]⟩
  · intro h
    have e1 : (P.tunnelEnabled && !P.dedicatedGnb) = false := by
      cases ht : P.tunnelEnabled <;> cases hd : P.dedicatedGnb <;> simp_all
    have e2 : (P.tunnelEnabled && decide (P.timeBetweenRegistration < 500)) = false := by
      cases ht : P.tunnelEnabled <;> simp_all
    have e3 : ¬ P.numPduSessions > 16 := fun h3 => h (Or.inr (Or.inr h3))
    simp [preflight, e1, e2, e3]
  · intro n t d l t1 t2 s
    refine ⟨by simp [preflight], ?_, ?_⟩
    · cases d <;> simp [preflight]
    · cases t <;> cases d <;> simp [preflight]
      split <;> simp

/-! ## Session fan-out of an actor (C4) -/

theorem pduLoop_eq (n : Nat) (q : List UeTesterMessage) :
    pduLoop n q = q ++ List.replicate n UeTesterMessage.NewPDUSession := by
  induction n generalizing q with
  | zero => simp [pduLoop]
  | succ n ih =>
    rw [pduLoop, ih, List.append_assoc]
    congr 1

theorem observationLoop_started (R n : Int) (states : List Int) (a : Actor)
    (h : a.pduStarted = true) : observationLoop R n states a = a := by
  induction states with
  | nil => rfl
  | cons s rest ih =>
    have hs : observe R n a s = a := by
      unfold observe
      simp [h]
    simpa [observationLoop, List.foldl_cons, hs] using ih

theorem observationLoop_unregistered (R n : Int) (states : List Int) (a : Actor)
    (h : R ∉ states) : observationLoop R n states a = a := by
  induction states with
  | nil => rfl
  | cons s rest ih =>
    have hne : s ≠ R := fun e => h (by simp [e])
    have hs : observe R n a s = a := by
      unfold observe
      simp [hne]
    have hr : R ∉ rest := fun e => h (List.mem_cons_of_mem _ e)
    simpa [observationLoop, List.foldl_cons, hs] using ih hr

theorem observationLoop_append (R n : Int) (xs ys : List Int) (a : Actor) :
    observationLoop R n (xs ++ ys) a = observationLoop R n ys (observationLoop R n xs a) := by
  simp [observationLoop, List.foldl_append]

theorem observationLoop_first (R n : Int) (pre post : List Int) (h : R ∉ pre) :
    observationLoop R n (pre ++ R :: post) actorStart =
      { sent := UeTesterMessage.Registration ::
          List.replicate n.toNat UeTesterMessage.NewPDUSession, pduStarted := true } := by
  rw [observationLoop_append, observationLoop_unregistered R n pre _ h]
  have h1 : observationLoop R n (R :: post) actorStart
      = observationLoop R n post (observe R n actorStart R) := by
    simp [observationLoop, List.foldl_cons]
  rw [h1]
  have h2 : observe R n actorStart R =
      { sent := UeTesterMessage.Registration ::
          List.replicate n.toNat UeTesterMessage.NewPDUSession, pduStarted := true } := by
    simp [observe, actorStart, pduLoop_eq]
  rw [h2]
  exact observationLoop_started R n post _ rfl

/-- C4: for every sequence of states returned to the observation loop of an
actor and every `numPduSessions` from 0 to 16, the number of `NewPDUSession`
commands the loop has sent is `numPduSessions` when the sequence holds a
registered state and 0 otherwise; they are all sent at the first registered
state (nothing before it), and the states after it add nothing. -/
theorem C4_session_commands_once (MM5G_REGISTERED numPduSessions : Int) (states : List Int)
    (h0 : 0 ≤ numPduSessions) (_h16 : numPduSessions ≤ 16) :
    ((pduCommands (observationLoop MM5G_REGISTERED numPduSessions states actorStart).sent : Int)
        = if MM5G_REGISTERED ∈ states then numPduSessions else 0) ∧
    (∀ pre post, states = pre ++ MM5G_REGISTERED :: post → MM5G_REGISTERED ∉ pre →
      pduCommands (observationLoop MM5G_REGISTERED numPduSessions pre actorStart).sent = 0 ∧
      (pduCommands (observationLoop MM5G_REGISTERED numPduSessions
        (pre ++ [MM5G_REGISTERED]) actorStart).sent : Int) = numPduSessions ∧
      (observationLoop MM5G_REGISTERED numPduSessions states actorStart).sent =
        (observationLoop MM5G_REGISTERED numPduSessions
          (pre ++ [MM5G_REGISTERED]) actorStart).sent) := by
  have hcount : (pduCommands (UeTesterMessage.Registration ::
      List.replicate numPduSessions.toNat UeTesterMessage.NewPDUSession) : Int)
      = numPduSessions := by
    simp [pduCommands, List.count_cons, List.count_replicate, Int.toNat_of_nonneg h0]
  refine ⟨?_, ?_⟩
  · by_cases hm : MM5G_REGISTERED ∈ states
    · obtain ⟨pre, post, hsplit, hpre⟩ := List.eq_append_cons_of_mem hm
      rw [if_pos hm, hsplit, observationLoop_first _ _ _ _ hpre]
      exact hcount
    · rw [if_neg hm, observationLoop_unregistered _ _ _ _ hm]
      simp [pduCommands, actorStart]
  · intro pre post hsplit hpre
    refine ⟨?_, ?_, ?_⟩
    · rw [observationLoop_unregistered _ _ _ _ hpre]
      simp [pduCommands, actorStart]
    · rw [observationLoop_first _ _ _ _ hpre]
      exact hcount
    · rw [hsplit, observationLoop_first _ _ _ _ hpre, observationLoop_first _ _ _ _ hpre]

/-- C4 at `numPduSessions = 2`, the registered state observed three times. -/
theorem C4_session_commands_once_witness :
    ((pduCommands (observationLoop 3 2 [1, 2, 3, 3, 4, 3] actorStart).sent : Int)
        = if (3 : Int) ∈ [1, 2, 3, 3, 4, 3] then 2 else 0) ∧
    (∀ pre post, [1, 2, 3, 3, 4, 3] = pre ++ (3 : Int) :: post → (3 : Int) ∉ pre →
      pduCommands (observationLoop 3 2 pre actorStart).sent = 0 ∧
      (pduCommands (observationLoop 3 2 (pre ++ [3]) actorStart).sent : Int) = 2 ∧
      (observationLoop 3 2 [1, 2, 3, 3, 4, 3] actorStart).sent =
        (observationLoop 3 2 (pre ++ [3]) actorStart).sent) :=
  C4_session_commands_once 3 2 [1, 2, 3, 3, 4, 3] (by decide) (by decide)

/-! ## The spawn loop (C2) -/

theorem spawned_append (a b : List Event) : spawned (a ++ b) = spawned a ++ spawned b := by
  induction a with
  | nil => rfl
  | cons e rest ih => cases e <;> simp [spawned, ih]

theorem imsiGenerator_of_atoi (i : Int) (msin : String) (v : Int) (h : Atoi msin = some v) :
    imsiGenerator i msin = .ok (Sprintf_010d (wrapInt (v + (i - 1)))) := by
  simp [imsiGenerator, h]

/-- What one turn of the spawn loop does to the state when the base MSIN is numeric. -/
theorem spawnUe_facts (P : Params) (E : Env) (ueId : Nat) (st : Sup) (v : Int)
    (h : Atoi st.msin = some v) :
    (spawnUe P E ueId st).halted = st.halted ∧
    (spawnUe P E ueId st).msin = st.msin ∧
    (spawnUe P E ueId st).polls = st.polls + 1 ∧
    (spawnUe P E ueId st).stopSignal = (if E.interrupt st.polls then false else st.stopSignal) ∧
    spawned (spawnUe P E ueId st).trace = spawned st.trace ++ [ueId] := by
  have hi := imsiGenerator_of_atoi ueId st.msin v h
  unfold spawnUe
  rw [hi]
  refine ⟨rfl, rfl, rfl, rfl, ?_⟩
  cases hc : st.ueChans.getD ueId none <;> simp [spawned_append, spawned]

theorem spawnLoop_uninterrupted (P : Params) (E : Env) (v : Int) :
    ∀ (r ueId : Nat) (st : Sup), Atoi st.msin = some v → st.halted = none →
      st.stopSignal = true → (∀ j, j < r → E.interrupt (st.polls + j) = false) →
      spawned (spawnLoop P E ueId r st).trace = spawned st.trace ++ List.range' ueId r ∧
      (spawnLoop P E ueId r st).stopSignal = true ∧
      (spawnLoop P E ueId r st).halted = none ∧
      (spawnLoop P E ueId r st).polls = st.polls + r ∧
      (spawnLoop P E ueId r st).msin = st.msin := by
  intro r
  induction r with
  | zero => intro ueId st _ hh hs _; simp [spawnLoop, hh, hs]
  | succ r ih =>
    intro ueId st hm hh hs hi
    obtain ⟨f1, f2, f3, f4, f5⟩ := spawnUe_facts P E ueId st v hm
    have h0 : E.interrupt st.polls = false := by simpa using hi 0 (Nat.succ_pos r)
    rw [h0] at f4
    have hh1 : (spawnUe P E ueId st).halted = none := f1.trans hh
    have hs1 : (spawnUe P E ueId st).stopSignal = true := by simpa [hs] using f4
    have hi1 : ∀ j, j < r → E.interrupt ((spawnUe P E ueId st).polls + j) = false := by
      intro j hj
      rw [f3]
      have := hi (j + 1) (Nat.succ_lt_succ hj)
      rwa [show st.polls + 1 + j = st.polls + (j + 1) by omega]
    obtain ⟨g1, g2, g3, g4, g5⟩ := ih (ueId + 1) (spawnUe P E ueId st) (f2 ▸ hm) hh1 hs1 hi1
    have hstep : spawnLoop P E ueId (r + 1) st = spawnLoop P E (ueId + 1) r (spawnUe P E ueId st) := by
      rw [spawnLoop]
      simp [hs, hh1]
    rw [hstep]
    refine ⟨?_, g2, g3, ?_, g5.trans f2⟩
    · rw [g1, f5, List.range'_succ, List.append_assoc]
      rfl
    · rw [g4, f3]
      omega

theorem spawnLoop_interrupted (P : Params) (E : Env) (v : Int) :
    ∀ (k r ueId : Nat) (st : Sup), Atoi st.msin = some v → st.halted = none →
      st.stopSignal = true → k < r → (∀ j, j < k → E.interrupt (st.polls + j) = false) →
      E.interrupt (st.polls + k) = true →
      spawned (spawnLoop P E ueId r st).trace = spawned st.trace ++ List.range' ueId (k + 1) ∧
      (spawnLoop P E ueId r st).stopSignal = false ∧
      (spawnLoop P E ueId r st).halted = none := by
  intro k
  induction k with
  | zero =>
    intro r ueId st hm hh hs hk _ hint
    obtain ⟨r, rfl⟩ : ∃ r1, r = r1 + 1 := ⟨r - 1, by omega⟩
    obtain ⟨f1, f2, f3, f4, f5⟩ := spawnUe_facts P E ueId st v hm
    have h0 : E.interrupt st.polls = true := by simpa using hint
    rw [h0] at f4
    have hh1 : (spawnUe P E ueId st).halted = none := f1.trans hh
    have hs1 : (spawnUe P E ueId st).stopSignal = false := by simpa using f4
    have hstep : spawnLoop P E ueId (r + 1) st = spawnUe P E ueId st := by
      rw [spawnLoop]
      simp only [hs, if_true, hh1]
      cases r <;> simp [spawnLoop, hs1]
    rw [hstep]
    exact ⟨by simpa using f5, hs1, hh1⟩
  | succ k ih =>
    intro r ueId st hm hh hs hk hi hint
    obtain ⟨r, rfl⟩ : ∃ r1, r = r1 + 1 := ⟨r - 1, by omega⟩
    obtain ⟨f1, f2, f3, f4, f5⟩ := spawnUe_facts P E ueId st v hm
    have h0 : E.interrupt st.polls = false := by simpa using hi 0 (Nat.succ_pos k)
    rw [h0] at f4
    have hh1 : (spawnUe P E ueId st).halted = none := f1.trans hh
    have hs1 : (spawnUe P E ueId st).stopSignal = true := by simpa [hs] using f4
    have hi1 : ∀ j, j < k → E.interrupt ((spawnUe P E ueId st).polls + j) = false := by
      intro j hj
      rw [f3]
      have := hi (j + 1) (Nat.succ_lt_succ hj)
      rwa [show st.polls + 1 + j = st.polls + (j + 1) by omega]
    have hint1 : E.interrupt ((spawnUe P E ueId st).polls + k) = true := by
      rw [f3]
      rwa [show st.polls + 1 + k = st.polls + (k + 1) by omega]
    obtain ⟨g1, g2, g3⟩ :=
      ih r (ueId + 1) (spawnUe P E ueId st) (f2 ▸ hm) hh1 hs1 (by omega) hi1 hint1
    have hstep : spawnLoop P E ueId (r + 1) st = spawnLoop P E (ueId + 1) r (spawnUe P E ueId st) := by
      rw [spawnLoop]
      simp [hs, hh1]
    rw [hstep]
    refine ⟨?_, g2, g3⟩
    rw [g1, f5, List.range'_succ ueId (k + 1), List.append_assoc]
    rfl

theorem outerLoop_stopped (P : Params) (E : Env) (budget : Nat) (st : Sup)
    (hs : st.stopSignal = false) : outerLoop P E budget st = (st, true) := by
  cases budget <;> simp [outerLoop, hs]

/-- C2: take the supervisor at the start of an iteration of its outer loop
(`stopSignal` set, not halted), with a numeric base MSIN.
If no poll of the iteration finds a signal, the iteration spawns exactly the
endpoints `1, 2, ..., numUes` in this order.  If the first signal is found at
the poll after the `k`-th spawn, it spawns exactly `1, ..., k`, and the outer
loop ends with this iteration whatever `loop` is, so that nothing is spawned
later.  In the non-looping run of 5 endpoints with the signal found after the
second spawn, exactly the endpoints 1 and 2 are spawned and the run returns. -/
theorem C2_spawn_sequence (P : Params) (E : Env) (st : Sup) (v : Int)
    (hm : Atoi st.msin = some v)
    (hh : st.halted = none) (hs : st.stopSignal = true) :
    ((∀ j, j < P.numUes.toNat → E.interrupt (st.polls + j) = false) →
      spawned (spawnLoop P E 1 P.numUes.toNat st).trace
        = spawned st.trace ++ List.range' 1 P.numUes.toNat ∧
      (spawnLoop P E 1 P.numUes.toNat st).stopSignal = true) ∧
    (∀ k, 1 ≤ k → k ≤ P.numUes.toNat →
      (∀ j, j < k - 1 → E.interrupt (st.polls + j) = false) →
      E.interrupt (st.polls + (k - 1)) = true →
      spawned (spawnLoop P E 1 P.numUes.toNat st).trace = spawned st.trace ++ List.range' 1 k ∧
      (spawnLoop P E 1 P.numUes.toNat st).stopSignal = false ∧
      ∀ budget, outerLoop P E (budget + 1) st = (spawnLoop P E 1 P.numUes.toNat st, true)) ∧
    (spawned (TestMultiUesInQueue ⟨5, false, false, false, 0, 0, 0⟩ (sampleEnv [1]) 1).trace
        = [1, 2] ∧
      (TestMultiUesInQueue ⟨5, false, false, false, 0, 0, 0⟩ (sampleEnv [1]) 1).exit
        = Exit.returned) := by
  refine ⟨?_, ?_, ?_⟩
  · intro hi
    obtain ⟨g1, g2, _, _, _⟩ := spawnLoop_uninterrupted P E v P.numUes.toNat 1 st hm hh hs hi
    exact ⟨g1, g2⟩
  · intro k hk1 hkn hi hint
    obtain ⟨g1, g2, g3⟩ :=
      spawnLoop_interrupted P E v (k - 1) P.numUes.toNat 1 st hm hh hs (by omega) hi hint
    rw [show k - 1 + 1 = k by omega] at g1
    refine ⟨g1, g2, ?_⟩
    intro budget
    rw [outerLoop]
    simp only [hs, if_true, g3]
    cases P.loop
    · rfl
    · simpa using outerLoop_stopped P E budget _ g2
  · constructor <;> decide

/-- C2 at three endpoints in a looping run, the signal found at the poll after
the second spawn: endpoints 1 and 2 are spawned and the outer loop is left. -/
theorem C2_spawn_sequence_witness :
    Atoi sampleSup.msin = some 1 ∧
    spawned (spawnLoop ⟨3, false, false, true, 0, 0, 0⟩ (sampleEnv [1]) 1 3 sampleSup).trace
      = [1, 2] ∧
    outerLoop ⟨3, false, false, true, 0, 0, 0⟩ (sampleEnv [1]) 8 sampleSup
      = (spawnLoop ⟨3, false, false, true, 0, 0, 0⟩ (sampleEnv [1]) 1 3 sampleSup, true) := by
  have h := (C2_spawn_sequence ⟨3, false, false, true, 0, 0, 0⟩ (sampleEnv [1]) sampleSup 1
    (by decide) rfl rfl).2.1 2 (by decide) (by decide)
    (by intro j hj; interval_cases j; decide) (by decide)
  exact ⟨by decide, h.1, h.2.2 7⟩

/-! ## Mailbox replacement (C3) -/

theorem madeFor_append (k : Nat) (a b : List Event) :
    madeFor k (a ++ b) = madeFor k a ++ madeFor k b := by
  induction a with
  | nil => rfl
  | cons e rest ih =>
    cases e <;> simp [madeFor, ih]
    split <;> simp

theorem terminated_append (a b : List Event) :
    terminated (a ++ b) = terminated a ++ terminated b := by
  induction a with
  | nil => rfl
  | cons e rest ih => cases e <;> simp [terminated, ih]

theorem terminatedFor_append (k : Nat) (a b : List Event) :
    terminatedFor k (a ++ b) = terminatedFor k a ++ terminatedFor k b := by
  induction a with
  | nil => rfl
  | cons e rest ih =>
    cases e <;> simp [terminatedFor, ih]
    split <;> simp

theorem terminatedFor_subset (k : Nat) (tr : List Event) (ch : Nat)
    (h : ch ∈ terminatedFor k tr) : ch ∈ terminated tr := by
  induction tr with
  | nil => simp [terminatedFor] at h
  | cons e rest ih =>
    cases e <;> simp only [terminatedFor, terminated] at h ⊢ <;> try exact ih h
    split at h
    · rcases List.mem_cons.1 h with h1 | h1
      · exact h1 ▸ List.mem_cons_self _ _
      · exact List.mem_cons_of_mem _ (ih h1)
    · exact List.mem_cons_of_mem _ (ih h)

/-- The mailboxes live for `k` are among those live when only the `Terminate`
sent as the mailbox of `k` are counted. -/
theorem liveMailboxes_sublist (k : Nat) (tr : List Event) :
    List.Sublist (liveMailboxes k tr) (liveFor k tr) := by
  unfold liveMailboxes liveFor
  apply List.monotone_filter_right
  intro ch hch
  simp only [decide_eq_true_eq] at hch ⊢
  exact fun h => hch (terminatedFor_subset k tr ch h)

theorem liveFor_append_quiet (k : Nat) (a b : List Event) (h1 : madeFor k b = [])
    (h2 : terminatedFor k b = []) : liveFor k (a ++ b) = liveFor k a := by
  simp [liveFor, madeFor_append, terminatedFor_append, h1, h2]

theorem liveFor_terminate (k : Nat) (tr : List Event) (ch : Nat) :
    liveFor k (tr ++ [Event.terminate k ch])
      = (liveFor k tr).filter (fun c => decide (c ≠ ch)) := by
  simp only [liveFor, madeFor_append, terminatedFor_append, madeFor, terminatedFor, if_true,
    List.append_nil, List.filter_filter]
  congr 1
  funext c
  simp [List.mem_append, not_or, and_comm]

theorem liveFor_make (k : Nat) (tr : List Event) (ch : Nat) (h : ch ∉ terminatedFor k tr) :
    liveFor k (tr ++ [Event.makeChan k ch]) = liveFor k tr ++ [ch] := by
  simp [liveFor, madeFor_append, terminatedFor_append, madeFor, terminatedFor, h]

theorem steps_snoc (tr : List Event) (e : Event)
    (h : ∀ n k, (liveFor k (tr.take n)).length ≤ 1)
    (hlast : ∀ k, (liveFor k (tr ++ [e])).length ≤ 1) :
    ∀ n k, (liveFor k ((tr ++ [e]).take n)).length ≤ 1 := by
  intro n k
  by_cases hn : n ≤ tr.length
  · rw [List.take_append_of_le_length hn]
    exact h n k
  · rw [List.take_of_length_le (by simp; omega)]
    exact hlast k

theorem spawnOK_snoc (tr : List Event) (e : Event) (h : SpawnOK tr)
    (hne : ∀ k ch cfg id8 g, e = Event.spawn k ch cfg id8 g →
      ∃ pre1, tr = pre1 ++ [Event.makeChan k ch] ∧ liveFor k pre1 = [] ∧
        ∀ k1, ch ∉ madeFor k1 pre1) :
    SpawnOK (tr ++ [e]) := by
  intro pre suf k ch cfg id8 g heq
  rcases List.eq_nil_or_concat suf with rfl | ⟨suf1, x, rfl⟩
  · have h1 : tr ++ [e] = pre ++ [Event.spawn k ch cfg id8 g] := heq
    obtain ⟨h2, h3⟩ := List.append_inj' h1 rfl
    have h4 : e = Event.spawn k ch cfg id8 g := by simpa using h3
    obtain ⟨pre1, hp, hl, hf⟩ := hne k ch cfg id8 g h4
    exact ⟨pre1, h2 ▸ hp, hl, hf⟩
  · have h1 : tr ++ [e] = (pre ++ Event.spawn k ch cfg id8 g :: suf1) ++ [x] := by
      rw [heq]
      simp
    obtain ⟨h2, _⟩ := List.append_inj' h1 rfl
    exact h pre suf1 k ch cfg id8 g h2

/-- An event that neither installs a mailbox nor sends `Terminate` keeps the
invariant, once the discipline of actor starts is known for the longer trace. -/
theorem TraceInv.quietWith {tr : List Event} {T : Nat → Option Nat} {N : Nat}
    (h : TraceInv tr T N) (e : Event) (hm : ∀ k, madeFor k [e] = [])
    (ht : ∀ k, terminatedFor k [e] = []) (hs : SpawnOK (tr ++ [e])) :
    TraceInv (tr ++ [e]) T N where
  steps := steps_snoc tr e h.steps (fun k => by
    rw [liveFor_append_quiet k tr [e] (hm k) (ht k)]
    simpa using h.steps tr.length k)
  table := fun k => by rw [liveFor_append_quiet k tr [e] (hm k) (ht k)]; exact h.table k
  bound := fun k ch hch => h.bound k ch (by simpa [madeFor_append, hm k] using hch)
  boundT := fun k ch hch => h.boundT k ch (by simpa [terminatedFor_append, ht k] using hch)
  spawnOK := hs

/-- An event that neither installs a mailbox, nor sends `Terminate`, nor
starts an actor keeps the invariant. -/
theorem TraceInv.quiet {tr : List Event} {T : Nat → Option Nat} {N : Nat}
    (h : TraceInv tr T N) (e : Event) (hm : ∀ k, madeFor k [e] = [])
    (ht : ∀ k, terminatedFor k [e] = [])
    (hs : ∀ k ch cfg id8 g, e ≠ Event.spawn k ch cfg id8 g) : TraceInv (tr ++ [e]) T N :=
  h.quietWith e hm ht
    (spawnOK_snoc tr e h.spawnOK (fun k ch cfg id8 g he => absurd he (hs k ch cfg id8 g)))

theorem madeFor_terminate (k k1 ch : Nat) : madeFor k [Event.terminate k1 ch] = [] := rfl

theorem terminatedFor_make (k k1 ch : Nat) : terminatedFor k [Event.makeChan k1 ch] = [] := rfl

theorem terminatedFor_other (k k1 ch : Nat) (h : k1 ≠ k) :
    terminatedFor k [Event.terminate k1 ch] = [] := by
  simp [terminatedFor, h]

theorem madeFor_other (k k1 ch : Nat) (h : k1 ≠ k) : madeFor k [Event.makeChan k1 ch] = [] := by
  simp [madeFor, h]

/-- Sending `Terminate` on the mailbox the table holds for `k` keeps the
invariant, the entry of `k` then standing for no live mailbox. -/
theorem TraceInv.terminate {tr : List Event} {T : Nat → Option Nat} {N : Nat}
    (h : TraceInv tr T N) (k old : Nat) (hT : T k = some old) :
    TraceInv (tr ++ [Event.terminate k old]) (Function.update T k none) N where
  steps := steps_snoc tr _ h.steps (fun k1 => by
    by_cases hk : k = k1
    · subst hk
      rw [liveFor_terminate]
      exact le_trans (List.length_filter_le _ _) (by simpa using h.steps tr.length k)
    · rw [liveFor_append_quiet k1 tr _ (madeFor_terminate k1 k old) (terminatedFor_other k1 k old hk)]
      simpa using h.steps tr.length k1)
  table := fun k1 => by
    by_cases hk : k = k1
    · subst hk
      rw [liveFor_terminate, h.table k, hT]
      simp
    · rw [liveFor_append_quiet k1 tr _ (madeFor_terminate k1 k old) (terminatedFor_other k1 k old hk),
        Function.update_noteq (Ne.symm hk)]
      exact h.table k1
  bound := fun k1 ch hch => h.bound k1 ch (by simpa [madeFor_append, madeFor] using hch)
  boundT := fun k1 ch hch => by
    rw [terminatedFor_append] at hch
    rcases List.mem_append.1 hch with h1 | h1
    · exact h.boundT k1 ch h1
    · by_cases hk : k = k1
      · subst hk
        have hc : ch = old := by simpa [terminatedFor] using h1
        subst hc
        have hl : ch ∈ liveFor k tr := by rw [h.table k, hT]; simp
        exact h.bound k ch (List.mem_of_mem_filter hl)
      · simp [terminatedFor_other k1 k old hk] at h1
  spawnOK := spawnOK_snoc tr _ h.spawnOK (fun _ _ _ _ _ he => by cases he)

/-- Installing a new mailbox for `k`, at a point where the table stands for no
live mailbox of `k`, keeps the invariant. -/
theorem TraceInv.make {tr : List Event} {T : Nat → Option Nat} {N : Nat}
    (h : TraceInv tr T N) (k ch : Nat) (hT : T k = none) (hN : N ≤ ch) :
    TraceInv (tr ++ [Event.makeChan k ch]) (Function.update T k (some ch)) (ch + 1) where
  steps := steps_snoc tr _ h.steps (fun k1 => by
    by_cases hk : k = k1
    · subst hk
      have hnt : ch ∉ terminatedFor k tr := fun hc => by
        have := h.boundT k ch hc
        omega
      rw [liveFor_make k tr ch hnt, h.table k, hT]
      simp
    · rw [liveFor_append_quiet k1 tr _ (madeFor_other k1 k ch hk) (terminatedFor_make k1 k ch)]
      simpa using h.steps tr.length k1)
  table := fun k1 => by
    by_cases hk : k = k1
    · subst hk
      have hnt : ch ∉ terminatedFor k tr := fun hc => by
        have := h.boundT k ch hc
        omega
      rw [liveFor_make k tr ch hnt, h.table k, hT]
      simp
    · rw [liveFor_append_quiet k1 tr _ (madeFor_other k1 k ch hk) (terminatedFor_make k1 k ch),
        Function.update_noteq (Ne.symm hk)]
      exact h.table k1
  bound := fun k1 c hc => by
    rw [madeFor_append] at hc
    rcases List.mem_append.1 hc with h1 | h1
    · have := h.bound k1 c h1
      omega
    · by_cases hk : k = k1
      · subst hk
        have : c = ch := by simpa [madeFor] using h1
        omega
      · simp [madeFor_other k1 k ch hk] at h1
  boundT := fun k1 c hc => by
    have := h.boundT k1 c (by simpa [terminatedFor_append, terminatedFor] using hc)
    omega
  spawnOK := spawnOK_snoc tr _ h.spawnOK (fun _ _ _ _ _ he => by cases he)

/-- Starting the actor of `k` on the mailbox just installed keeps the
invariant. -/
theorem TraceInv.spawn {tr : List Event} {T T1 : Nat → Option Nat} {N N1 : Nat}
    (h0 : TraceInv tr T N) (k ch : Nat) (cfg : Config) (id8 : Nat) (g : Option Nat)
    (hT : T k = none) (hN : N ≤ ch)
    (h : TraceInv (tr ++ [Event.makeChan k ch]) T1 N1) :
    TraceInv (tr ++ [Event.makeChan k ch] ++ [Event.spawn k ch cfg id8 g]) T1 N1 := by
  refine h.quietWith _ (fun _ => rfl) (fun _ => rfl) ?_
  refine spawnOK_snoc _ _ h.spawnOK ?_
  intro k1 ch1 cfg1 id1 g1 he
  cases he
  refine ⟨tr, rfl, ?_, ?_⟩
  · rw [h0.table k, hT]
    rfl
  · intro k2 hc
    have := h0.bound k2 ch hc
    omega

theorem getD_set_table (l : List (Option Nat)) (k j : Nat) (x : Option Nat)
    (hk : k < l.length) :
    (l.set k x).getD j none = Function.update (fun i => l.getD i none) k x j := by
  by_cases h : j = k
  · subst h
    simp [List.getD_eq_getElem?_getD, List.getElem?_set, hk]
  · simp [List.getD_eq_getElem?_getD, List.getElem?_set, h, Function.update_noteq h, Ne.symm h]

/-- The block of events of one turn of the spawn loop keeps the invariant. -/
theorem TraceInv.turn {tr : List Event} {T : Nat → Option Nat} {N : Nat}
    (h : TraceInv tr T N) (k : Nat) (cfg : Config) (id8 : Nat) (g : Option Nat) (ms : Int)
    (got : Bool) :
    TraceInv ((match T k with
        | some old => tr ++ [Event.terminate k old]
        | none => tr) ++
      [Event.makeChan k N, Event.spawn k N cfg id8 g, Event.sleep ms, Event.poll got])
      (Function.update T k (some N)) (N + 1) := by
  cases hc : T k with
  | none =>
    have h1 := h.make k N hc (le_refl _)
    have h2 := h.spawn k N cfg id8 g hc (le_refl _) h1
    have h3 := h2.quiet (Event.sleep ms) (fun _ => rfl) (fun _ => rfl)
      (fun _ _ _ _ _ he => by cases he)
    have h4 := h3.quiet (Event.poll got) (fun _ => rfl) (fun _ => rfl)
      (fun _ _ _ _ _ he => by cases he)
    simpa using h4
  | some old =>
    have h0 := h.terminate k old hc
    have hT1 : Function.update T k none k = none := Function.update_same _ _ _
    have h1 := h0.make k N hT1 (le_refl _)
    rw [Function.update_idem] at h1
    have h2 := h0.spawn k N cfg id8 g hT1 (le_refl _) h1
    have h3 := h2.quiet (Event.sleep ms) (fun _ => rfl) (fun _ => rfl)
      (fun _ _ _ _ _ he => by cases he)
    have h4 := h3.quiet (Event.poll got) (fun _ => rfl) (fun _ => rfl)
      (fun _ _ _ _ _ he => by cases he)
    simpa using h4

/-- One turn of the spawn loop keeps the invariant. -/
theorem spawnUe_inv (P : Params) (E : Env) (ueId : Nat) (st : Sup)
    (hlen : ueId < st.ueChans.length)
    (h : TraceInv st.trace (fun k => st.ueChans.getD k none) st.nextChan) :
    TraceInv (spawnUe P E ueId st).trace (fun k => (spawnUe P E ueId st).ueChans.getD k none)
      (spawnUe P E ueId st).nextChan ∧
    (spawnUe P E ueId st).ueChans.length = st.ueChans.length := by
  unfold spawnUe
  cases imsiGenerator ueId st.msin with
  | fatal msg => exact ⟨h, rfl⟩
  | ok imsi =>
    refine ⟨?_, by simp⟩
    have htab : (fun k => (st.ueChans.set ueId (some st.nextChan)).getD k none)
        = Function.update (fun k => st.ueChans.getD k none) ueId (some st.nextChan) := by
      funext j
      exact getD_set_table st.ueChans ueId j _ hlen
    dsimp only
    rw [htab]
    exact h.turn ueId _ _ _ _ _

theorem spawnLoop_inv (P : Params) (E : Env) :
    ∀ (r ueId : Nat) (st : Sup), (r ≠ 0 → ueId + r ≤ st.ueChans.length) →
      TraceInv st.trace (fun k => st.ueChans.getD k none) st.nextChan →
      TraceInv (spawnLoop P E ueId r st).trace
        (fun k => (spawnLoop P E ueId r st).ueChans.getD k none)
        (spawnLoop P E ueId r st).nextChan ∧
      (spawnLoop P E ueId r st).ueChans.length = st.ueChans.length := by
  intro r
  induction r with
  | zero => intro ueId st _ h; exact ⟨h, rfl⟩
  | succ r ih =>
    intro ueId st hlen h
    rw [spawnLoop]
    by_cases hs : st.stopSignal = true
    · simp only [hs, if_true]
      have hlen1 := hlen (Nat.succ_ne_zero r)
      obtain ⟨h1, h2⟩ := spawnUe_inv P E ueId st (by omega) h
      cases hh : (spawnUe P E ueId st).halted with
      | some e => exact ⟨h1, h2⟩
      | none =>
        obtain ⟨g1, g2⟩ := ih (ueId + 1) (spawnUe P E ueId st) (fun _ => by omega) h1
        exact ⟨g1, g2.trans h2⟩
    · simp only [hs]
      exact ⟨h, rfl⟩

theorem outerLoop_inv (P : Params) (E : Env) :
    ∀ (budget : Nat) (st : Sup), (P.numUes.toNat ≠ 0 → 1 + P.numUes.toNat ≤ st.ueChans.length) →
      TraceInv st.trace (fun k => st.ueChans.getD k none) st.nextChan →
      TraceInv (outerLoop P E budget st).1.trace
        (fun k => (outerLoop P E budget st).1.ueChans.getD k none)
        (outerLoop P E budget st).1.nextChan := by
  intro budget
  induction budget with
  | zero => intro st _ h; exact h
  | succ b ih =>
    intro st hlen h
    rw [outerLoop]
    by_cases hs : st.stopSignal = true
    · simp only [hs, if_true]
      obtain ⟨h1, h2⟩ := spawnLoop_inv P E P.numUes.toNat 1 st hlen h
      cases hh : (spawnLoop P E 1 P.numUes.toNat st).halted with
      | some e => exact h1
      | none =>
        cases hl : P.loop with
        | false => exact h1
        | true => exact ih _ (fun hz => by have := hlen hz; omega) h1
    · simp only [hs]
      exact h

theorem TraceInv.empty : TraceInv [] (fun _ => none) 0 where
  steps := fun n k => by simp [liveFor, madeFor]
  table := fun k => by simp [liveFor, madeFor]
  bound := fun k ch h => by simp [madeFor] at h
  boundT := fun k ch h => by simp [terminatedFor] at h
  spawnOK := fun pre suf k ch cfg id8 g h => by simp at h

/-- The trace, mailbox table and mailbox counter after the body of the station
loop. -/
theorem buildGnb_facts (E : Env) (i : Nat) (st : Sup) :
    (∃ cfg, (buildGnb E i st).trace = st.trace ++ [Event.initGnb i cfg]) ∧
    (buildGnb E i st).ueChans = st.ueChans ∧ (buildGnb E i st).nextChan = st.nextChan := by
  unfold buildGnb
  dsimp only
  cases incrementIP E.parseIPv6 st.n2Ip "0.0.0.0/0" with
  | fatal msg => exact ⟨⟨_, rfl⟩, rfl, rfl⟩
  | ok r2 =>
    cases incrementIP E.parseIPv6 st.n3Ip "0.0.0.0/0" with
    | fatal msg => exact ⟨⟨_, rfl⟩, rfl, rfl⟩
    | ok r3 => exact ⟨⟨_, rfl⟩, rfl, rfl⟩

theorem buildGnbs_inv (E : Env) (T : Nat → Option Nat) (N : Nat) :
    ∀ (r i : Nat) (st : Sup), TraceInv st.trace T N →
      TraceInv (buildGnbs E i r st).trace T N ∧
      (buildGnbs E i r st).ueChans = st.ueChans ∧ (buildGnbs E i r st).nextChan = st.nextChan := by
  intro r
  induction r with
  | zero => intro i st h; exact ⟨h, rfl, rfl⟩
  | succ r ih =>
    intro i st h
    obtain ⟨⟨cfg, f1⟩, f2, f3⟩ := buildGnb_facts E i st
    have h1 : TraceInv (buildGnb E i st).trace T N := by
      rw [f1]
      exact h.quiet _ (fun _ => rfl) (fun _ => rfl) (fun _ _ _ _ _ he => by cases he)
    rw [buildGnbs]
    cases hh : (buildGnb E i st).halted with
    | some e => exact ⟨h1, f2, f3⟩
    | none =>
      obtain ⟨g1, g2, g3⟩ := ih (i + 1) (buildGnb E i st) h1
      exact ⟨g1, g2.trans f2, g3.trans f3⟩

theorem getD_replicate_none (n k : Nat) :
    (List.replicate n (none : Option Nat)).getD k none = none := by
  simp only [List.getD_eq_getElem?_getD, List.getElem?_replicate]
  split <;> rfl

/-- The shapes of the trace of a run: empty, or the trace of the station loop
(possibly with the settle delay), or the trace of the outer loop (possibly
with the final wait). -/
theorem run_trace_cases (P : Params) (E : Env) (budget : Nat) :
    (TestMultiUesInQueue P E budget).trace = [] ∨
    ∃ cfg, E.config = some cfg ∧ preflight P = none ∧
      ((TestMultiUesInQueue P E budget).trace
          = (buildGnbs E 1 (numGnb P).toNat (enterStations cfg)).trace ∨
        (TestMultiUesInQueue P E budget).trace
          = (buildGnbs E 1 (numGnb P).toNat (enterStations cfg)).trace ++ [Event.settle] ∨
        (0 ≤ P.numUes + 1 ∧
          ((TestMultiUesInQueue P E budget).trace
            = (outerLoop P E budget (enterSpawning P
                (buildGnbs E 1 (numGnb P).toNat (enterStations cfg)))).1.trace ∨
          (TestMultiUesInQueue P E budget).trace
            = (outerLoop P E budget (enterSpawning P
                (buildGnbs E 1 (numGnb P).toNat (enterStations cfg)))).1.trace
              ++ [Event.wait]))) := by
  cases hp : preflight P with
  | some msg => left; simp [TestMultiUesInQueue, hp]
  | none =>
    cases hc : E.config with
    | none => left; simp [TestMultiUesInQueue, hp, hc]
    | some cfg =>
      right
      refine ⟨cfg, rfl, rfl, ?_⟩
      cases hh : (buildGnbs E 1 (numGnb P).toNat (enterStations cfg)).halted with
      | some e => left; simp [TestMultiUesInQueue, hp, hc, hh]
      | none =>
        right
        by_cases hneg : P.numUes + 1 < 0
        · left; simp [TestMultiUesInQueue, hp, hc, hh, hneg]
        · right
          refine ⟨by omega, ?_⟩
          cases hh2 : (outerLoop P E budget (enterSpawning P
              (buildGnbs E 1 (numGnb P).toNat (enterStations cfg)))).1.halted with
          | some e => left; simp [TestMultiUesInQueue, hp, hc, hh, hneg, hh2]
          | none =>
            cases hd : (outerLoop P E budget (enterSpawning P
                (buildGnbs E 1 (numGnb P).toNat (enterStations cfg)))).2 with
            | true => right; simp [TestMultiUesInQueue, hp, hc, hh, hneg, hh2, hd]
            | false => left; simp [TestMultiUesInQueue, hp, hc, hh, hneg, hh2, hd]

/-- Every trace of the supervisor satisfies the invariant, for some table and
counter. -/
theorem run_inv (P : Params) (E : Env) (budget : Nat) :
    ∃ T N, TraceInv (TestMultiUesInQueue P E budget).trace T N := by
  rcases run_trace_cases P E budget with h | ⟨cfg, _, _, h⟩
  · rw [h]
    exact ⟨_, _, TraceInv.empty⟩
  · obtain ⟨b1, b2, b3⟩ := buildGnbs_inv E _ _ (numGnb P).toNat 1 (enterStations cfg)
      TraceInv.empty
    have b4 := b1.quiet Event.settle (fun _ => rfl) (fun _ => rfl)
      (fun _ _ _ _ _ he => by cases he)
    rcases h with h | h | ⟨hpos, h⟩
    · rw [h]
      exact ⟨_, _, b1⟩
    · rw [h]
      exact ⟨_, _, b4⟩
    · have hT : (fun k => (List.replicate (P.numUes + 1).toNat (none : Option Nat)).getD k none)
          = fun _ => none := by
        funext k
        exact getD_replicate_none _ k
      have h2 : TraceInv (enterSpawning P (buildGnbs E 1 (numGnb P).toNat
          (enterStations cfg))).trace
          (fun k => (enterSpawning P (buildGnbs E 1 (numGnb P).toNat
            (enterStations cfg))).ueChans.getD k none)
          (enterSpawning P (buildGnbs E 1 (numGnb P).toNat (enterStations cfg))).nextChan := by
        show TraceInv (_ ++ [Event.settle])
          (fun k => (List.replicate (P.numUes + 1).toNat (none : Option Nat)).getD k none)
          (buildGnbs E 1 (numGnb P).toNat (enterStations cfg)).nextChan
        rw [hT, b3]
        exact b4
      have hinv := outerLoop_inv P E budget _
        (fun hz => by
          show 1 + P.numUes.toNat ≤ (List.replicate (P.numUes + 1).toNat
            (none : Option Nat)).length
          simp only [List.length_replicate]
          omega) h2
      rcases h with h | h
      · rw [h]
        exact ⟨_, _, hinv⟩
      · rw [h]
        exact ⟨_, _, hinv.quiet Event.wait (fun _ => rfl) (fun _ => rfl)
          (fun _ _ _ _ _ he => by cases he)⟩

theorem spawnUe_first (P : Params) (E : Env) (ueId : Nat) (st : Sup)
    (h : st.ueChans.getD ueId none = none) :
    terminated (spawnUe P E ueId st).trace = terminated st.trace ∧
    ∀ j, j ≠ ueId → (spawnUe P E ueId st).ueChans.getD j none = st.ueChans.getD j none := by
  unfold spawnUe
  cases imsiGenerator ueId st.msin with
  | fatal msg => exact ⟨rfl, fun _ _ => rfl⟩
  | ok imsi =>
    dsimp only
    rw [h]
    refine ⟨by simp [terminated_append, terminated], ?_⟩
    intro j hj
    simp [List.getD_eq_getElem?_getD, List.getElem?_set, Ne.symm hj]

theorem spawnLoop_first (P : Params) (E : Env) :
    ∀ (r ueId : Nat) (st : Sup), (∀ j, ueId ≤ j → st.ueChans.getD j none = none) →
      terminated (spawnLoop P E ueId r st).trace = terminated st.trace := by
  intro r
  induction r with
  | zero => intro ueId st _; rfl
  | succ r ih =>
    intro ueId st h
    rw [spawnLoop]
    by_cases hs : st.stopSignal = true
    · simp only [hs, if_true]
      obtain ⟨f1, f2⟩ := spawnUe_first P E ueId st (h ueId (le_refl _))
      cases hh : (spawnUe P E ueId st).halted with
      | some e => exact f1
      | none =>
        have := ih (ueId + 1) (spawnUe P E ueId st) (fun j hj => by
          rw [f2 j (by omega)]
          exact h j (by omega))
        exact this.trans f1
    · simp only [hs]
      rfl

theorem outerLoop_first (P : Params) (E : Env) (st : Sup)
    (h : ∀ j, st.ueChans.getD j none = none) :
    terminated (outerLoop P E 1 st).1.trace = terminated st.trace := by
  have h1 := spawnLoop_first P E P.numUes.toNat 1 st (fun j _ => h j)
  rw [outerLoop]
  by_cases hs : st.stopSignal = true
  · simp only [hs, if_true]
    cases hh : (spawnLoop P E 1 P.numUes.toNat st).halted with
    | some e => exact h1
    | none =>
      cases hl : P.loop with
      | false => exact h1
      | true => simpa [outerLoop] using h1
  · simp only [hs]
    rfl

theorem buildGnbs_terminated (E : Env) :
    ∀ (r i : Nat) (st : Sup), terminated (buildGnbs E i r st).trace = terminated st.trace := by
  intro r
  induction r with
  | zero => intro i st; rfl
  | succ r ih =>
    intro i st
    obtain ⟨⟨cfg, f1⟩, _, _⟩ := buildGnb_facts E i st
    have h1 : terminated (buildGnb E i st).trace = terminated st.trace := by
      rw [f1, terminated_append]
      simp [terminated]
    rw [buildGnbs]
    cases hh : (buildGnb E i st).halted with
    | some e => exact h1
    | none => exact (ih (i + 1) (buildGnb E i st)).trans h1

theorem mem_madeFor (k ch : Nat) (tr : List Event) (h : Event.makeChan k ch ∈ tr) :
    ch ∈ madeFor k tr := by
  obtain ⟨a, b, rfl⟩ := List.append_of_mem h
  simp [madeFor_append, madeFor]

theorem terminated_of_not_live (k ch : Nat) (tr : List Event) (h : liveFor k tr = [])
    (hm : ch ∈ madeFor k tr) : ch ∈ terminated tr := by
  by_contra hc
  have : ch ∈ liveFor k tr := by
    unfold liveFor
    rw [List.mem_filter]
    refine ⟨hm, ?_⟩
    simp only [decide_eq_true_eq]
    exact fun ht => hc (terminatedFor_subset k tr ch ht)
  rw [h] at this
  simp at this

/-- C3: in every run of the supervisor, (1) at every step (after every prefix
of its effects) each endpoint index has at most one mailbox, among those
installed for it, on which `Terminate` has not been sent; (2) an actor for `k`
is started only right after a mailbox has been installed for `k`, a mailbox
never installed before, at a point where `Terminate` has been sent on every
mailbox installed for `k` earlier, so on the mailbox of every actor started
for `k` before; (3) in the first iteration of the outer loop, where the table
holds no mailbox, no `Terminate` is sent. -/
theorem C3_mailbox_replacement (P : Params) (E : Env) (budget : Nat) :
    (∀ n k, (liveMailboxes k ((TestMultiUesInQueue P E budget).trace.take n)).length ≤ 1) ∧
    (∀ pre suf k ch cfg id8 g,
      (TestMultiUesInQueue P E budget).trace = pre ++ Event.spawn k ch cfg id8 g :: suf →
      (∃ pre1, pre = pre1 ++ [Event.makeChan k ch] ∧ liveMailboxes k pre1 = [] ∧
        ∀ k1, ch ∉ madeFor k1 pre1) ∧
      (∀ ch1 cfg1 id1 g1, Event.spawn k ch1 cfg1 id1 g1 ∈ pre → ch1 ∈ terminated pre)) ∧
    terminated (TestMultiUesInQueue P E 1).trace = [] := by
  obtain ⟨T, N, hinv⟩ := run_inv P E budget
  refine ⟨?_, ?_, ?_⟩
  · intro n k
    exact le_trans (liveMailboxes_sublist k _).length_le (hinv.steps n k)
  · intro pre suf k ch cfg id8 g heq
    obtain ⟨pre1, hp, hl, hf⟩ := hinv.spawnOK pre suf k ch cfg id8 g heq
    refine ⟨⟨pre1, hp, List.eq_nil_of_sublist_nil (hl ▸ liveMailboxes_sublist k pre1), hf⟩, ?_⟩
    intro ch1 cfg1 id1 g1 hmem
    obtain ⟨a, b, hab⟩ := List.append_of_mem hmem
    have heq2 : (TestMultiUesInQueue P E budget).trace
        = a ++ Event.spawn k ch1 cfg1 id1 g1 :: (b ++ Event.spawn k ch cfg id8 g :: suf) := by
      rw [heq, hab]
      simp
    obtain ⟨a1, ha, _, _⟩ := hinv.spawnOK a _ k ch1 cfg1 id1 g1 heq2
    have hpre1 : pre1 = a ++ (Event.spawn k ch1 cfg1 id1 g1 :: b).dropLast := by
      have h1 : pre.dropLast = pre1 := by rw [hp]; simp
      rw [← h1, hab, List.dropLast_append_of_ne_nil _ (by simp)]
    have hmk : Event.makeChan k ch1 ∈ pre1 := by
      rw [hpre1, ha]
      simp
    have ht := terminated_of_not_live k ch1 pre1 hl (mem_madeFor k ch1 pre1 hmk)
    rw [hp, terminated_append]
    exact List.mem_append_left _ ht
  · rcases run_trace_cases P E 1 with h | ⟨cfg, _, _, h⟩
    · rw [h]
      rfl
    · have b1 := buildGnbs_terminated E (numGnb P).toNat 1 (enterStations cfg)
      have b0 : terminated (enterStations cfg).trace = [] := rfl
      rw [b0] at b1
      rcases h with h | h | ⟨_, h⟩
      · rw [h, b1]
      · rw [h, terminated_append, b1]
        rfl
      · have h2 := outerLoop_first P E (enterSpawning P (buildGnbs E 1 (numGnb P).toNat
          (enterStations cfg))) (fun j => getD_replicate_none _ j)
        have h3 : terminated (enterSpawning P (buildGnbs E 1 (numGnb P).toNat
            (enterStations cfg))).trace = [] := by
          show terminated (_ ++ [Event.settle]) = []
          rw [terminated_append, b1]
          rfl
        rw [h3] at h2
        rcases h with h | h
        · rw [h, h2]
        · rw [h, terminated_append, h2]
          rfl

/-! ## The index given to the endpoint runtime (C10) -/

theorem runtimeIds_append (a b : List Event) :
    runtimeIds (a ++ b) = runtimeIds a ++ runtimeIds b := by
  induction a with
  | nil => rfl
  | cons e rest ih => cases e <;> simp [runtimeIds, ih]

theorem spawnUe_runtimeIds (P : Params) (E : Env) (ueId : Nat) (st : Sup) (v : Int)
    (h : Atoi st.msin = some v) :
    runtimeIds (spawnUe P E ueId st).trace = runtimeIds st.trace ++ [(ueId, ueId % 256)] := by
  have hi := imsiGenerator_of_atoi ueId st.msin v h
  unfold spawnUe
  rw [hi]
  cases hc : st.ueChans.getD ueId none <;> simp [runtimeIds_append, runtimeIds]

/-- In an iteration of the spawn loop that no signal interrupts, the actor of
endpoint `ueId` is given the runtime index `ueId % 256`. -/
theorem spawnLoop_runtimeIds (P : Params) (E : Env) (v : Int) :
    ∀ (r ueId : Nat) (st : Sup), Atoi st.msin = some v → st.halted = none →
      st.stopSignal = true → (∀ j, j < r → E.interrupt (st.polls + j) = false) →
      runtimeIds (spawnLoop P E ueId r st).trace
        = runtimeIds st.trace ++ (List.range' ueId r).map (fun k => (k, k % 256)) := by
  intro r
  induction r with
  | zero => intro ueId st _ _ _ _; simp [spawnLoop]
  | succ r ih =>
    intro ueId st hm hh hs hi
    obtain ⟨f1, f2, f3, f4, _⟩ := spawnUe_facts P E ueId st v hm
    have f5 := spawnUe_runtimeIds P E ueId st v hm
    have h0 : E.interrupt st.polls = false := by simpa using hi 0 (Nat.succ_pos r)
    rw [h0] at f4
    have hh1 : (spawnUe P E ueId st).halted = none := f1.trans hh
    have hs1 : (spawnUe P E ueId st).stopSignal = true := by simpa [hs] using f4
    have hi1 : ∀ j, j < r → E.interrupt ((spawnUe P E ueId st).polls + j) = false := by
      intro j hj
      rw [f3]
      have := hi (j + 1) (Nat.succ_lt_succ hj)
      rwa [show st.polls + 1 + j = st.polls + (j + 1) by omega]
    have hstep : spawnLoop P E ueId (r + 1) st = spawnLoop P E (ueId + 1) r (spawnUe P E ueId st) := by
      rw [spawnLoop]
      simp [hs, hh1]
    rw [hstep, ih (ueId + 1) (spawnUe P E ueId st) (f2 ▸ hm) hh1 hs1 hi1, f5, List.range'_succ,
      List.map_cons, List.append_assoc]
    rfl

/-- C10, at the input `numUes = 257` (shared station, no signal): the actors of
the iteration are given the runtime indices `ueId % 256`, so the endpoints 1
and 257 are both given the index 1 and the endpoint 256 the index 0. -/
theorem C10_runtime_index_wraps :
    runtimeIds (spawnLoop ⟨257, false, false, false, 0, 0, 0⟩ (sampleEnv []) 1 257
        (enterSpawning ⟨257, false, false, false, 0, 0, 0⟩
          (buildGnbs (sampleEnv []) 1 1 (enterStations sampleConfig)))).trace
      = (List.range' 1 257).map (fun k => (k, k % 256)) ∧
    (1, 1) ∈ (List.range' 1 257).map (fun k => (k, k % 256)) ∧
    (257, 1) ∈ (List.range' 1 257).map (fun k => (k, k % 256)) ∧
    (256, 0) ∈ (List.range' 1 257).map (fun k => (k, k % 256)) := by
  refine ⟨?_, ?_, ?_, ?_⟩
  · have h := spawnLoop_runtimeIds ⟨257, false, false, false, 0, 0, 0⟩ (sampleEnv []) 1 257 1
      (enterSpawning ⟨257, false, false, false, 0, 0, 0⟩
        (buildGnbs (sampleEnv []) 1 1 (enterStations sampleConfig)))
      (by decide) (by decide) (by decide) (fun j _ => by simp [sampleEnv])
    rw [h]
    have h0 : runtimeIds (enterSpawning ⟨257, false, false, false, 0, 0, 0⟩
        (buildGnbs (sampleEnv []) 1 1 (enterStations sampleConfig))).trace = [] := by decide
    rw [h0]
    rfl
  · exact List.mem_map.2 ⟨1, List.mem_range'_1.2 ⟨by omega, by omega⟩, rfl⟩
  · exact List.mem_map.2 ⟨257, List.mem_range'_1.2 ⟨by omega, by omega⟩, rfl⟩
  · exact List.mem_map.2 ⟨256, List.mem_range'_1.2 ⟨by omega, by omega⟩, rfl⟩

/-! ## Station construction (C9) -/

theorem stations_append (a b : List Event) : stations (a ++ b) = stations a ++ stations b := by
  induction a with
  | nil => rfl
  | cons e rest ih => cases e <;> simp [stations, ih]

theorem spawnUe_stations (P : Params) (E : Env) (ueId : Nat) (st : Sup) :
    stations (spawnUe P E ueId st).trace = stations st.trace := by
  unfold spawnUe
  cases imsiGenerator ueId st.msin with
  | fatal msg => rfl
  | ok imsi =>
    cases hc : st.ueChans.getD ueId none <;> simp [stations_append, stations]

theorem spawnLoop_stations (P : Params) (E : Env) :
    ∀ (r ueId : Nat) (st : Sup), stations (spawnLoop P E ueId r st).trace = stations st.trace := by
  intro r
  induction r with
  | zero => intro ueId st; rfl
  | succ r ih =>
    intro ueId st
    rw [spawnLoop]
    by_cases hs : st.stopSignal = true
    · simp only [hs, if_true]
      cases hh : (spawnUe P E ueId st).halted with
      | some e => exact spawnUe_stations P E ueId st
      | none => exact (ih (ueId + 1) _).trans (spawnUe_stations P E ueId st)
    · simp only [hs]
      rfl

theorem outerLoop_stations (P : Params) (E : Env) :
    ∀ (budget : Nat) (st : Sup), stations (outerLoop P E budget st).1.trace = stations st.trace := by
  intro budget
  induction budget with
  | zero => intro st; rfl
  | succ b ih =>
    intro st
    rw [outerLoop]
    by_cases hs : st.stopSignal = true
    · simp only [hs, if_true]
      have h1 := spawnLoop_stations P E P.numUes.toNat 1 st
      cases hh : (spawnLoop P E 1 P.numUes.toNat st).halted with
      | some e => exact h1
      | none =>
        cases hl : P.loop with
        | false => exact h1
        | true => exact (ih _).trans h1
    · simp only [hs]
      rfl

/-- The body of the station loop when both calls of `incrementIP` return. -/
theorem buildGnb_ok (E : Env) (i : Nat) (st : Sup) (s2 s3 : String) (e2 e3 : Option String)
    (h2 : incrementIP E.parseIPv6 st.n2Ip "0.0.0.0/0" = .ok (s2, e2))
    (h3 : incrementIP E.parseIPv6 st.n3Ip "0.0.0.0/0" = .ok (s3, e3)) :
    (buildGnb E i st).halted = st.halted ∧ (buildGnb E i st).n2Ip = s2 ∧
    (buildGnb E i st).n3Ip = s3 ∧
    (buildGnb E i st).cfg = stationConfig st.cfg (E.gnbIdGenerator i) st.n2Ip st.n3Ip := by
  unfold buildGnb
  dsimp only
  rw [h2]
  dsimp only
  rw [h3]
  exact ⟨rfl, rfl, rfl, rfl⟩

theorem buildGnb_station (E : Env) (i : Nat) (st : Sup) :
    stations (buildGnb E i st).trace = stations st.trace ++
      [(i, stationConfig st.cfg (E.gnbIdGenerator i) st.n2Ip st.n3Ip)] := by
  unfold buildGnb
  dsimp only
  cases incrementIP E.parseIPv6 st.n2Ip "0.0.0.0/0" with
  | fatal msg => simp [stations_append, stations, stationConfig]
  | ok r2 =>
    cases incrementIP E.parseIPv6 st.n3Ip "0.0.0.0/0" with
    | fatal msg => simp [stations_append, stations, stationConfig]
    | ok r3 => simp [stations_append, stations, stationConfig]

theorem advance_succ_ok (p6 : List Char → List Nat) (ip : String)
    (h : advance p6 1 ip ≠ none) :
    ∃ s e, incrementIP p6 ip "0.0.0.0/0" = .ok (s, e) ∧ ∀ t, advance p6 (t + 1) ip = advance p6 t s := by
  cases hi : incrementIP p6 ip "0.0.0.0/0" with
  | fatal msg => simp [advance, hi] at h
  | ok r => exact ⟨r.1, r.2, rfl, fun t => by simp [advance, hi]⟩

/-- The stations started by the station loop from index `i` on: station
`i + t` is started with the identity `gnbIdGenerator(i + t)` and the two
running addresses advanced `t` times. -/
theorem buildGnbs_stations (E : Env) :
    ∀ (r i : Nat) (st : Sup), st.halted = none →
      (∀ t, t < r → advance E.parseIPv6 t st.n2Ip ≠ none ∧ advance E.parseIPv6 t st.n3Ip ≠ none) →
      stations (buildGnbs E i r st).trace = stations st.trace ++
        (List.range r).map (fun t => (i + t,
          stationConfig st.cfg (E.gnbIdGenerator ((i + t : Nat) : Int))
            ((advance E.parseIPv6 t st.n2Ip).getD "")
            ((advance E.parseIPv6 t st.n3Ip).getD ""))) := by
  intro r
  induction r with
  | zero => intro i st _ _; simp [buildGnbs]
  | succ r ih =>
    intro i st hh hadv
    have hst := buildGnb_station E i st
    rw [List.range_succ_eq_map, List.map_cons, List.map_map]
    rcases Nat.eq_zero_or_pos r with hr | hr
    · subst hr
      have : buildGnbs E i 1 st = buildGnb E i st := by
        rw [buildGnbs]
        cases (buildGnb E i st).halted <;> simp [buildGnbs]
      rw [this, hst]
      simp [advance]
    · obtain ⟨s2, e2, h2, a2⟩ := advance_succ_ok E.parseIPv6 st.n2Ip (hadv 1 (by omega)).1
      obtain ⟨s3, e3, h3, a3⟩ := advance_succ_ok E.parseIPv6 st.n3Ip (hadv 1 (by omega)).2
      obtain ⟨f1, f2, f3, f4⟩ := buildGnb_ok E i st s2 s3 e2 e3 h2 h3
      have hadv1 : ∀ t, t < r → advance E.parseIPv6 t (buildGnb E i st).n2Ip ≠ none ∧
          advance E.parseIPv6 t (buildGnb E i st).n3Ip ≠ none := by
        intro t ht
        rw [f2, f3, ← a2 t, ← a3 t]
        exact hadv (t + 1) (by omega)
      have hrec := ih (i + 1) (buildGnb E i st) (f1.trans hh) hadv1
      have hstep : buildGnbs E i (r + 1) st = buildGnbs E (i + 1) r (buildGnb E i st) := by
        rw [buildGnbs]
        simp [f1.trans hh]
      rw [hstep, hrec, hst, List.append_assoc, List.singleton_append]
      refine congrArg (fun l => stations st.trace ++ l) ?_
      have hhead : (i, stationConfig st.cfg (E.gnbIdGenerator (i : Int)) st.n2Ip st.n3Ip)
          = (i + 0, stationConfig st.cfg (E.gnbIdGenerator ((i + 0 : Nat) : Int))
              ((advance E.parseIPv6 0 st.n2Ip).getD "")
              ((advance E.parseIPv6 0 st.n3Ip).getD "")) := rfl
      rw [hhead]
      refine congrArg (fun l => _ :: l) ?_
      apply List.map_congr_left
      intro t _
      simp only [Function.comp, f2, f3, f4, a2, a3, stationConfig, Nat.succ_eq_add_one]
      rw [show i + 1 + t = i + (t + 1) by omega]

/-- The trace of a run that passed the pre-flight checks and read its
configuration, as to the stations started: those of the station loop. -/
theorem run_stations (P : Params) (E : Env) (budget : Nat) (cfg : Config)
    (hp : preflight P = none) (hc : E.config = some cfg) :
    stations (TestMultiUesInQueue P E budget).trace
      = stations (buildGnbs E 1 (numGnb P).toNat (enterStations cfg)).trace := by
  have hs : stations (enterSpawning P (buildGnbs E 1 (numGnb P).toNat (enterStations cfg))).trace
      = stations (buildGnbs E 1 (numGnb P).toNat (enterStations cfg)).trace := by
    show stations (_ ++ [Event.settle]) = _
    rw [stations_append]
    simp [stations]
  have ho := outerLoop_stations P E budget
    (enterSpawning P (buildGnbs E 1 (numGnb P).toNat (enterStations cfg)))
  cases hh : (buildGnbs E 1 (numGnb P).toNat (enterStations cfg)).halted with
  | some e => simp [TestMultiUesInQueue, hp, hc, hh]
  | none =>
    by_cases hneg : P.numUes + 1 < 0
    · simp [TestMultiUesInQueue, hp, hc, hh, hneg, stations_append, stations]
    · cases hh2 : (outerLoop P E budget (enterSpawning P
          (buildGnbs E 1 (numGnb P).toNat (enterStations cfg)))).1.halted with
      | some e =>
        simp only [TestMultiUesInQueue, hp, hc, hh, hneg, hh2, if_false]
        exact ho.trans hs
      | none =>
        cases hd : (outerLoop P E budget (enterSpawning P
            (buildGnbs E 1 (numGnb P).toNat (enterStations cfg)))).2 with
        | true =>
          simp only [TestMultiUesInQueue, hp, hc, hh, hneg, hh2, hd, if_false, if_true,
            stations_append]
          rw [ho, hs]
          simp [stations]
        | false =>
          simp only [TestMultiUesInQueue, hp, hc, hh, hneg, hh2, hd, if_false]
          exact ho.trans hs

/-! ## Decimal text: parsing and printing -/

theorem digitChar_isDigit : ∀ d : Nat, d < 10 → (Nat.digitChar d).isDigit = true := by decide

theorem digitChar_value : ∀ d : Nat, d < 10 → (Nat.digitChar d).toNat - 48 = d := by decide

theorem fmtDigits_eq :
    ∀ (fuel n : Nat) (acc : List Char), n < fuel → 0 < n →
      fmtDigits fuel n acc = digitChars n ++ acc := by
  intro fuel
  induction fuel with
  | zero => intro n acc h; omega
  | succ fuel ih =>
    intro n acc hlt hpos
    rw [fmtDigits]
    by_cases h10 : n < 10
    · rw [if_pos h10]
      simp [digitChars, Nat.digits_of_lt 10 n (by omega) h10]
    · rw [if_neg h10, ih (n / 10) _ (by omega) (by omega)]
      have hd : Nat.digits 10 n = n % 10 :: Nat.digits 10 (n / 10) :=
        Nat.digits_def' (by norm_num) hpos
      simp [digitChars, hd]

theorem decimal_pos (n : Nat) (h : 0 < n) : decimal n = digitChars n := by
  unfold decimal
  rw [fmtDigits_eq (n + 1) n [] (by omega) h, List.append_nil]

theorem decimal_zero : decimal 0 = ['0'] := rfl

theorem zeroPad_decimal (w n : Nat) (hw : 0 < w) :
    zeroPad w (decimal n) = zeroPad w (digitChars n) := by
  rcases Nat.eq_zero_or_pos n with h | h
  · subst h
    obtain ⟨w, rfl⟩ : ∃ w1, w = w1 + 1 := ⟨w - 1, by omega⟩
    simp [zeroPad, decimal_zero, digitChars, List.replicate_succ']
  · rw [decimal_pos n h]

theorem digitsValue_digits (ds : List Nat) (h : ∀ d ∈ ds, d < 10) (a : Nat) :
    digitsValue a (ds.map Nat.digitChar)
      = some (Nat.ofDigits 10 ds.reverse + a * 10 ^ ds.length) := by
  induction ds generalizing a with
  | nil => simp [digitsValue]
  | cons d rest ih =>
    have hd : d < 10 := h d (List.mem_cons_self _ _)
    have hr : ∀ x ∈ rest, x < 10 := fun x hx => h x (List.mem_cons_of_mem _ hx)
    simp only [List.map_cons, digitsValue, digitChar_isDigit d hd, if_true,
      digitChar_value d hd, ih hr, List.reverse_cons, Nat.ofDigits_append,
      Nat.ofDigits_singleton, List.length_reverse, List.length_cons]
    congr 1
    ring

theorem digitsValue_digitChars (n : Nat) : digitsValue 0 (digitChars n) = some n := by
  unfold digitChars
  rw [digitsValue_digits _ (fun d hd => Nat.digits_lt_base (by norm_num) (List.mem_reverse.1 hd))]
  simp [Nat.ofDigits_digits]

theorem digitsValue_zeros (k : Nat) (xs : List Char) :
    digitsValue 0 (List.replicate k '0' ++ xs) = digitsValue 0 xs := by
  induction k with
  | zero => rfl
  | succ k ih =>
    rw [List.replicate_succ, List.cons_append, digitsValue]
    simpa using ih

theorem digitsValue_zeroPad (w n : Nat) : digitsValue 0 (zeroPad w (decimal n)) = some n := by
  unfold zeroPad
  rw [digitsValue_zeros]
  rcases Nat.eq_zero_or_pos n with h | h
  · subst h
    rfl
  · rw [decimal_pos n h, digitsValue_digitChars]

theorem digitChars_isDigit (n : Nat) : ∀ c ∈ digitChars n, c.isDigit = true := by
  intro c hc
  unfold digitChars at hc
  obtain ⟨d, hd, rfl⟩ := List.mem_map.1 hc
  exact digitChar_isDigit d (Nat.digits_lt_base (by norm_num) (List.mem_reverse.1 hd))

theorem decimal_isDigit (n : Nat) : ∀ c ∈ decimal n, c.isDigit = true := by
  rcases Nat.eq_zero_or_pos n with h | h
  · subst h
    intro c hc
    have : c = '0' := by simpa [decimal_zero] using hc
    subst this
    rfl
  · rw [decimal_pos n h]
    exact digitChars_isDigit n

theorem decimal_ne_nil (n : Nat) : decimal n ≠ [] := by
  rcases Nat.eq_zero_or_pos n with h | h
  · subst h
    simp [decimal_zero]
  · rw [decimal_pos n h]
    unfold digitChars
    simp [Nat.digits_ne_nil_iff_ne_zero]
    omega

theorem zeroPad_isDigit (w n : Nat) : ∀ c ∈ zeroPad w (decimal n), c.isDigit = true := by
  intro c hc
  unfold zeroPad at hc
  rcases List.mem_append.1 hc with h | h
  · have : c = '0' := (List.mem_replicate.1 h).2
    subst this
    rfl
  · exact decimal_isDigit n c h

theorem zeroPad_ne_nil (w n : Nat) : zeroPad w (decimal n) ≠ [] := by
  unfold zeroPad
  simp [decimal_ne_nil]

/-- `Atoi` on a text of digits only: the value, when it fits. -/
theorem Atoi_digits (cs : List Char) (v : Nat) (hne : cs ≠ [])
    (hd : ∀ c ∈ cs, c.isDigit = true) (hv : digitsValue 0 cs = some v) (hlt : v < 2 ^ 63) :
    Atoi (String.mk cs) = some (v : Int) := by
  obtain ⟨c, rest, rfl⟩ := List.exists_cons_of_ne_nil hne
  have hc : c.isDigit = true := hd c (List.mem_cons_self _ _)
  have h1 : c ≠ '-' := fun e => by subst e; exact absurd hc (by decide)
  have h2 : c ≠ '+' := fun e => by subst e; exact absurd hc (by decide)
  have hlt1 : v < 9223372036854775808 := by norm_num at hlt; exact hlt
  simp [Atoi, h1, h2, hv, hlt1]

/-- `Atoi` on a minus sign followed by digits: the negated value, when it fits. -/
theorem Atoi_minus (cs : List Char) (v : Nat) (hne : cs ≠ [])
    (hv : digitsValue 0 cs = some v) (hle : v ≤ 2 ^ 63) :
    Atoi (String.mk ('-' :: cs)) = some (-(v : Int)) := by
  have hle1 : v ≤ 9223372036854775808 := by norm_num at hle; exact hle
  simp [Atoi, hne, hv, hle1]

/-- Parsing what `Sprintf("%010d")` printed gives the number back. -/
theorem Atoi_Sprintf (n : Int) (hlo : -2 ^ 63 ≤ n) (hhi : n < 2 ^ 63) :
    Atoi (Sprintf_010d n) = some n := by
  unfold Sprintf_010d
  by_cases hneg : n < 0
  · rw [if_pos hneg, Atoi_minus _ n.natAbs (zeroPad_ne_nil 9 _) (digitsValue_zeroPad 9 _)
      (by omega)]
    have h : -(n.natAbs : Int) = n := by omega
    rw [h]
  · rw [if_neg hneg, Atoi_digits _ n.natAbs (zeroPad_ne_nil 10 _) (zeroPad_isDigit 10 _)
      (digitsValue_zeroPad 10 _) (by omega)]
    have h : (n.natAbs : Int) = n := by omega
    rw [h]

theorem wrapInt_range (x : Int) : -2 ^ 63 ≤ wrapInt x ∧ wrapInt x < 2 ^ 63 := by
  unfold wrapInt
  constructor <;> omega

theorem wrapInt_of_range (x : Int) (hlo : -2 ^ 63 ≤ x) (hhi : x < 2 ^ 63) : wrapInt x = x := by
  unfold wrapInt
  omega


/-! ## Identity derivation (C5, C6) -/

/-- `Atoi` on the text of the digits `ds`: their value, when it fits an `int`. -/
theorem Atoi_digitText (ds : List Nat) (hne : ds ≠ []) (hd : ∀ d ∈ ds, d < 10)
    (hv : Nat.ofDigits 10 ds.reverse < 2 ^ 63) :
    Atoi (digitText ds) = some ((Nat.ofDigits 10 ds.reverse : Nat) : Int) := by
  unfold digitText
  apply Atoi_digits _ _ (by simpa using hne) _ _ hv
  · intro c hc
    obtain ⟨d, hdm, rfl⟩ := List.mem_map.1 hc
    exact digitChar_isDigit d (hd d hdm)
  · rw [digitsValue_digits ds hd 0]
    simp

/-- C5, as the code has it: for a base identity that is a non-empty text of
decimal digits `ds` (value `v`) and an offset `i ≥ 1` with `v + (i - 1)` within
the range of `int`, `imsiGenerator(i, base)` returns the decimal numeral of
`v + (i - 1)` padded with zeros on the left to the fixed width 10, whatever the
width of the base identity. -/
theorem C5_fixed_width_ten (ds : List Nat) (i : Int) (hne : ds ≠ [])
    (hd : ∀ d ∈ ds, d < 10) (hi : 1 ≤ i)
    (hsum : ((Nat.ofDigits 10 ds.reverse : Nat) : Int) + (i - 1) < 2 ^ 63) :
    imsiGenerator i (digitText ds)
      = .ok (paddedNumeral 10 (((Nat.ofDigits 10 ds.reverse : Nat) : Int) + (i - 1)).toNat) := by
  have hv : Nat.ofDigits 10 ds.reverse < 2 ^ 63 := by
    have : ((Nat.ofDigits 10 ds.reverse : Nat) : Int) < 2 ^ 63 := by omega
    exact_mod_cast this
  rw [imsiGenerator_of_atoi i _ _ (Atoi_digitText ds hne hd hv),
    wrapInt_of_range _ (by omega) hsum]
  unfold Sprintf_010d paddedNumeral
  rw [if_neg (by omega), zeroPad_decimal 10 _ (by norm_num)]
  have hnat : (((Nat.ofDigits 10 ds.reverse : Nat) : Int) + (i - 1)).natAbs
      = (((Nat.ofDigits 10 ds.reverse : Nat) : Int) + (i - 1)).toNat := by omega
  rw [hnat]

/-- C5 at the base identity `0000000120` and offset 3. -/
theorem C5_fixed_width_ten_witness :
    imsiGenerator 3 (digitText [0, 0, 0, 0, 0, 0, 0, 1, 2, 0])
      = .ok (paddedNumeral 10
          (((Nat.ofDigits 10 [0, 0, 0, 0, 0, 0, 0, 1, 2, 0].reverse : Nat) : Int) + (3 - 1)).toNat) :=
  C5_fixed_width_ten [0, 0, 0, 0, 0, 0, 0, 1, 2, 0] 3 (by decide) (by decide) (by decide)
    (by norm_num [Nat.ofDigits])

/-- C5 as stated fails: for the three-digit base identity `001` and offset 1
the claim predicts the numeral of 1 padded to the width 3 of the base, `001`;
the code returns the ten characters `0000000001`.  And for the base identity
`9223372036854775807` and offset 2 the sum wraps around, the code returning
`-9223372036854775808`. -/
theorem C5_original_width_counterexample :
    imsiGenerator 1 "001" = .ok "0000000001" ∧
    paddedNumeral ("001" : String).length (1 + (1 - 1)) = "001" ∧
    imsiGenerator 1 "001" ≠ .ok (paddedNumeral ("001" : String).length (1 + (1 - 1))) ∧
    imsiGenerator 2 "9223372036854775807" = .ok "-9223372036854775808" := by
  have h : paddedNumeral ("001" : String).length (1 + (1 - 1)) = "001" := by
    simp [paddedNumeral, digitChars, zeroPad]
    decide
  refine ⟨by decide, h, ?_, by decide⟩
  rw [h]
  decide

/-- C6: for a fixed base identity that is a non-empty text of decimal digits
whose value fits an `int`, and offsets `i`, `j` in `1..N`, both calls of
`imsiGenerator` return, and they return the same string only when `i = j`: the
`N` derived identities are pairwise distinct.  For the base `0000000001` the
first three are `0000000001`, `0000000002`, `0000000003`. -/
theorem C6_derivation_injective (ds : List Nat) (N i j : Int) (hne : ds ≠ [])
    (hd : ∀ d ∈ ds, d < 10) (hv : Nat.ofDigits 10 ds.reverse < 2 ^ 63) (hN : N < 2 ^ 63)
    (hi : 1 ≤ i ∧ i ≤ N) (hj : 1 ≤ j ∧ j ≤ N) :
    (∃ s, imsiGenerator i (digitText ds) = .ok s) ∧
    (imsiGenerator i (digitText ds) = imsiGenerator j (digitText ds) → i = j) ∧
    (imsiGenerator 1 "0000000001" = .ok "0000000001" ∧
      imsiGenerator 2 "0000000001" = .ok "0000000002" ∧
      imsiGenerator 3 "0000000001" = .ok "0000000003") := by
  have ha := Atoi_digitText ds hne hd hv
  have hvi : ((Nat.ofDigits 10 ds.reverse : Nat) : Int) < 2 ^ 63 := by exact_mod_cast hv
  refine ⟨⟨_, imsiGenerator_of_atoi i _ _ ha⟩, ?_, by decide, by decide, by decide⟩
  rw [imsiGenerator_of_atoi i _ _ ha, imsiGenerator_of_atoi j _ _ ha]
  intro heq
  have hs : Sprintf_010d (wrapInt (((Nat.ofDigits 10 ds.reverse : Nat) : Int) + (i - 1)))
      = Sprintf_010d (wrapInt (((Nat.ofDigits 10 ds.reverse : Nat) : Int) + (j - 1))) := by
    injection heq
  have h1 := Atoi_Sprintf _ (wrapInt_range (((Nat.ofDigits 10 ds.reverse : Nat) : Int) + (i - 1))).1
    (wrapInt_range _).2
  have h2 := Atoi_Sprintf _ (wrapInt_range (((Nat.ofDigits 10 ds.reverse : Nat) : Int) + (j - 1))).1
    (wrapInt_range _).2
  rw [hs, h2] at h1
  have hw := Option.some.inj h1
  unfold wrapInt at hw
  omega

/-- C6 at the base identity `0000000001` and the offsets 2 and 3 of `1..3`. -/
theorem C6_derivation_injective_witness :
    (∃ s, imsiGenerator 2 (digitText [0, 0, 0, 0, 0, 0, 0, 0, 0, 1]) = .ok s) ∧
    (imsiGenerator 2 (digitText [0, 0, 0, 0, 0, 0, 0, 0, 0, 1])
      = imsiGenerator 3 (digitText [0, 0, 0, 0, 0, 0, 0, 0, 0, 1]) → (2 : Int) = 3) :=
  let h := C6_derivation_injective [0, 0, 0, 0, 0, 0, 0, 0, 0, 1] 3 2 3 (by decide) (by decide)
    (by norm_num [Nat.ofDigits]) (by norm_num) (by decide) (by decide)
  ⟨h.1, h.2.1⟩

/-! ## Dotted-decimal text: parsing and printing -/

theorem digitsValue_ge : ∀ (cs : List Char) (a v : Nat), digitsValue a cs = some v → a ≤ v := by
  intro cs
  induction cs with
  | nil => intro a v h; simp [digitsValue] at h; omega
  | cons c rest ih =>
    intro a v h
    rw [digitsValue] at h
    split at h
    · have := ih _ _ h
      omega
    · simp at h

theorem dtoiLoop_digits :
    ∀ (cs : List Char) (n i v : Nat) (rest : List Char),
      (∀ c ∈ cs, c.isDigit = true) → digitsValue n cs = some v → v < 0xFFFFFF →
      (∀ c, rest.head? = some c → c.isDigit = false) → 0 < i + cs.length →
      dtoiLoop n i (cs ++ rest) = (v, i + cs.length, true) := by
  intro cs
  induction cs with
  | nil =>
    intro n i v rest _ hv _ hrest hpos
    have hn : n = v := by simpa [digitsValue] using hv
    have hi : i ≠ 0 := by
      have : 0 < i := by simpa using hpos
      omega
    subst hn
    cases rest with
    | nil => simp [dtoiLoop, hi]
    | cons c r =>
      have hc : c.isDigit = false := hrest c rfl
      simp [dtoiLoop, hc, hi]
  | cons c cs ih =>
    intro n i v rest hd hv hlt hrest _
    have hc : c.isDigit = true := hd c (List.mem_cons_self _ _)
    rw [digitsValue, if_pos hc] at hv
    have hge := digitsValue_ge cs _ v hv
    have hrec := ih (n * 10 + (c.toNat - 48)) (i + 1) v rest
      (fun x hx => hd x (List.mem_cons_of_mem _ hx)) hv hlt hrest (by omega)
    rw [List.cons_append, dtoiLoop, if_pos hc, if_neg (by omega), hrec]
    simp only [List.length_cons, Prod.mk.injEq, and_true, true_and]
    omega

/-- `dtoi` on the numeral of `a` followed by something that is not a digit. -/
theorem dtoi_decimal (a : Nat) (rest : List Char) (ha : a < 0xFFFFFF)
    (hrest : ∀ c, rest.head? = some c → c.isDigit = false) :
    dtoi (decimal a ++ rest) = (a, (decimal a).length, true) := by
  have hpos : 0 < (decimal a).length := List.length_pos.2 (decimal_ne_nil a)
  have hv : digitsValue 0 (decimal a) = some a := by
    have := digitsValue_zeroPad 0 a
    simpa [zeroPad] using this
  have := dtoiLoop_digits (decimal a) 0 0 a rest (decimal_isDigit a) hv ha hrest (by omega)
  simpa [dtoi] using this

theorem digitChar_zero : ∀ d : Nat, d < 10 → Nat.digitChar d = '0' → d = 0 := by decide

/-- A numeral of more than one character does not start with `0`. -/
theorem decimal_no_leading_zero (a : Nat) :
    ¬ (1 < (decimal a).length ∧ (decimal a).head? = some '0') := by
  rintro ⟨hlen, hhead⟩
  rcases Nat.eq_zero_or_pos a with h | h
  · subst h
    simp [decimal_zero] at hlen
  · rw [decimal_pos a h] at hhead
    unfold digitChars at hhead
    have hne : Nat.digits 10 a ≠ [] := by
      simp [Nat.digits_ne_nil_iff_ne_zero]
      omega
    rw [List.head?_map, List.head?_reverse, List.getLast?_eq_getLast _ hne] at hhead
    simp only [Option.map_some', Option.some.injEq] at hhead
    have hlt : (Nat.digits 10 a).getLast hne < 10 :=
      Nat.digits_lt_base (by norm_num) (List.getLast_mem hne)
    exact Nat.getLast_digit_ne_zero 10 (by omega) (digitChar_zero _ hlt hhead)

/-- The first field of `parseIPv4`: the numeral of an octet is read as that
octet. -/
theorem parseIPv4Fields_first (k : Nat) (p : List Nat) (a : Nat) (rest : List Char)
    (ha : a < 256) (hrest : ∀ c, rest.head? = some c → c.isDigit = false) :
    parseIPv4Fields (k + 1) 0 p (decimal a ++ rest)
      = parseIPv4Fields k 1 (p ++ [a]) rest := by
  have hd := dtoi_decimal a rest (by omega) hrest
  have hz := decimal_no_leading_zero a
  obtain ⟨c0, cs0, hcs⟩ := List.exists_cons_of_ne_nil (decimal_ne_nil a)
  have h1 : ¬ (1 < (decimal a).length ∧ (decimal a ++ rest).head? = some '0') := by
    rw [hcs] at hz ⊢
    simpa using hz
  have hlen : ¬ (decimal a ++ rest).length = 0 := by
    rw [hcs]
    simp
  rw [parseIPv4Fields]
  simp only [hlen, if_false, gt_iff_lt, Nat.lt_irrefl, false_and, hd, Bool.not_true,
    Bool.false_eq_true, false_or, Nat.not_lt.2 (by omega : a ≤ 0xFF), h1, List.drop_left,
    Nat.zero_add]

/-- A later field of `parseIPv4`: a dot and the numeral of an octet are read as
that octet. -/
theorem parseIPv4Fields_next (k i : Nat) (p : List Nat) (a : Nat) (rest : List Char)
    (hi : 0 < i) (ha : a < 256) (hrest : ∀ c, rest.head? = some c → c.isDigit = false) :
    parseIPv4Fields (k + 1) i p ('.' :: (decimal a ++ rest))
      = parseIPv4Fields k (i + 1) (p ++ [a]) rest := by
  have hd := dtoi_decimal a rest (by omega) hrest
  have hz := decimal_no_leading_zero a
  obtain ⟨c0, cs0, hcs⟩ := List.exists_cons_of_ne_nil (decimal_ne_nil a)
  have h1 : ¬ (1 < (decimal a).length ∧ (decimal a ++ rest).head? = some '0') := by
    rw [hcs] at hz ⊢
    simpa using hz
  rw [parseIPv4Fields]
  simp only [List.length_cons, Nat.add_one_ne_zero, if_false, gt_iff_lt, hi, List.head?_cons,
    ne_eq, not_true_eq_false, and_false, if_true, List.drop_succ_cons, List.drop_zero, hd,
    Bool.not_true, Bool.false_eq_true, false_or, Nat.not_lt.2 (by omega : a ≤ 0xFF), h1,
    List.drop_left]

/-- `parseIPv4` reads the dotted-decimal text of `a.b.c.d` as that address. -/
theorem parseIPv4_dotted (a b c d : Nat) (ha : a < 256) (hb : b < 256) (hc : c < 256)
    (hd : d < 256) : parseIPv4 (dotted a b c d).toList = IPv4 a b c d := by
  have hdot : ∀ (r : List Char) (x : Char), ('.' :: r).head? = some x → x.isDigit = false := by
    intro r x h
    have : x = '.' := by simpa using h.symm
    subst this
    rfl
  have hnil : ∀ x : Char, ([] : List Char).head? = some x → x.isDigit = false := by
    intro x h
    simp at h
  have hshape : (dotted a b c d).toList
      = decimal a ++ ('.' :: (decimal b ++ ('.' :: (decimal c ++ ('.' :: (decimal d ++ [])))))) := by
    simp [dotted]
  rw [hshape]
  unfold parseIPv4
  rw [parseIPv4Fields_first 3 [] a _ ha (hdot _),
    parseIPv4Fields_next 2 1 _ b _ (by omega) hb (hdot _),
    parseIPv4Fields_next 1 2 _ c _ (by omega) hc (hdot _),
    parseIPv4Fields_next 0 3 _ d _ (by omega) hd hnil]
  simp [parseIPv4Fields]

theorem parseIPScan_digits (p6 : List Char → List Nat) (s : List Char) :
    ∀ (cs rest : List Char), (∀ c ∈ cs, c.isDigit = true) →
      parseIPScan p6 s (cs ++ '.' :: rest) = parseIPv4 s := by
  intro cs
  induction cs with
  | nil => intro rest _; simp [parseIPScan]
  | cons c cs ih =>
    intro rest h
    have hc : c.isDigit = true := h c (List.mem_cons_self _ _)
    have h1 : c ≠ '.' := fun e => by subst e; exact absurd hc (by decide)
    have h2 : c ≠ ':' := fun e => by subst e; exact absurd hc (by decide)
    rw [List.cons_append, parseIPScan, if_neg h1, if_neg h2]
    exact ih rest (fun x hx => h x (List.mem_cons_of_mem _ hx))

/-- `net.ParseIP` reads the dotted-decimal text of `a.b.c.d` as that address,
whatever the parser of the IPv6 form. -/
theorem ParseIP_dotted (p6 : List Char → List Nat) (a b c d : Nat) (ha : a < 256)
    (hb : b < 256) (hc : c < 256) (hd : d < 256) :
    ParseIP p6 (dotted a b c d) = IPv4 a b c d := by
  have hshape : (dotted a b c d).toList
      = decimal a ++ '.' :: (decimal b ++ ('.' :: (decimal c ++ ('.' :: decimal d)))) := by
    simp [dotted]
  unfold ParseIP
  have h := parseIPScan_digits p6 (dotted a b c d).toList (decimal a)
    (decimal b ++ ('.' :: (decimal c ++ ('.' :: decimal d)))) (decimal_isDigit a)
  rw [← hshape] at h
  rw [h]
  exact parseIPv4_dotted a b c d ha hb hc hd

/-- `IP.String` prints the 16-byte form of `a.b.c.d` in dotted decimal. -/
theorem ipString_IPv4 (a b c d : Nat) : ipString (IPv4 a b c d) = dotted a b c d := by
  simp [ipString, To4, IPv4, v4InV6Head, dotted]

/-- The carry loop on an IPv4 address other than 255.255.255.255 gives the
address whose number is one more. -/
theorem incrementLoop_IPv4 (a b c d : Nat) (ha : a < 256) (hb : b < 256) (hc : c < 256)
    (hd : d < 256) (hmax : ipv4Value a b c d + 1 < 4294967296) :
    (incrementLoop (IPv4 a b c d).reverse).reverse = ipv4OfValue (ipv4Value a b c d + 1) := by
  have hrev : (IPv4 a b c d).reverse = [d, c, b, a, 255, 255, 0, 0, 0, 0, 0, 0, 0, 0, 0, 0] := by
    simp [IPv4, v4InV6Head]
  rw [hrev]
  unfold ipv4OfValue ipv4Value IPv4 v4InV6Head
  unfold ipv4Value at hmax
  by_cases h3 : d = 255
  · by_cases h2 : c = 255
    · by_cases h1 : b = 255
      · subst h3 h2 h1
        have h0 : (a + 1) % 256 = a + 1 := by omega
        have h0' : a + 1 ≠ 0 := by omega
        simp [incrementLoop, h0, h0']
        refine ⟨?_, ?_, ?_, ?_⟩ <;> omega
      · subst h3 h2
        have h0 : (b + 1) % 256 = b + 1 := by omega
        simp [incrementLoop, h0]
        refine ⟨?_, ?_, ?_, ?_⟩ <;> omega
    · subst h3
      have h0 : (c + 1) % 256 = c + 1 := by omega
      simp [incrementLoop, h0]
      refine ⟨?_, ?_, ?_, ?_⟩ <;> omega
  · have h0 : (d + 1) % 256 = d + 1 := by omega
    simp [incrementLoop, h0]
    refine ⟨?_, ?_, ?_, ?_⟩ <;> omega

/-! ## Address incrementation (C7, C8) -/

/-- What `incrementIP` does on a dotted IPv4 address other than
255.255.255.255 under a CIDR text that parses to the network `n`: a
`log.Fatal` when `n` does not include the next address, the dotted text of the
next address otherwise. -/
theorem incrementIP_dotted (p6 : List Char → List Nat) (a b c d : Nat) (cidr : String)
    (n : IPNet) (ha : a < 256) (hb : b < 256) (hc : c < 256) (hd : d < 256)
    (hmax : ipv4Value a b c d + 1 < 4294967296) (hn : ParseCIDR p6 cidr = some n) :
    incrementIP p6 (dotted a b c d) cidr
      = if Contains n (ipv4OfValue (ipv4Value a b c d + 1)) = true
        then .ok (dottedOfValue (ipv4Value a b c d + 1), none)
        else .fatal "[GNB][CONFIG] gNB IP Address is not in N2/N3 subnet" := by
  unfold incrementIP
  rw [hn, ParseIP_dotted p6 a b c d ha hb hc hd]
  dsimp only
  rw [incrementLoop_IPv4 a b c d ha hb hc hd hmax]
  cases hcon : Contains n (ipv4OfValue (ipv4Value a b c d + 1)) with
  | false => simp
  | true =>
    simp only [Bool.not_true, Bool.false_eq_true, if_false, if_true]
    unfold ipv4OfValue dottedOfValue
    rw [ipString_IPv4]

/-- C7, as the code has it: for a dotted IPv4 address `a.b.c.d` other than
255.255.255.255 and a CIDR text that parses, whenever `incrementIP` returns it
returns, with no error, the dotted text of the address whose number, read as a
big-endian integer, is one more (the last octet incremented, an octet that
overflows to 0 carrying into the octet before it).  Nine successive calls from
10.0.0.5 under 10.0.0.0/24 give 10.0.0.14. -/
theorem C7_numeric_successor (p6 : List Char → List Nat) (a b c d : Nat) (cidr : String)
    (n : IPNet) (r : String) (e : Option String)
    (ha : a < 256) (hb : b < 256) (hc : c < 256) (hd : d < 256)
    (hmax : ipv4Value a b c d + 1 < 4294967296) (hn : ParseCIDR p6 cidr = some n)
    (hret : incrementIP p6 (dotted a b c d) cidr = .ok (r, e)) :
    (r = dottedOfValue (ipv4Value a b c d + 1) ∧ e = none) ∧
    incrementTimes parseIPv6Unspecified "10.0.0.0/24" 9 "10.0.0.5" = .ok "10.0.0.14" := by
  refine ⟨?_, by decide⟩
  rw [incrementIP_dotted p6 a b c d cidr n ha hb hc hd hmax hn] at hret
  split at hret
  · injection hret with h
    injection h with h1 h2
    exact ⟨h1.symm, h2.symm⟩
  · cases hret

/-- C7 at 10.0.0.255 under 10.0.0.0/16: the call returns 10.0.1.0. -/
theorem C7_numeric_successor_witness :
    ("10.0.1.0" = dottedOfValue (ipv4Value 10 0 0 255 + 1) ∧ (none : Option String) = none) ∧
    incrementTimes parseIPv6Unspecified "10.0.0.0/24" 9 "10.0.0.5" = .ok "10.0.0.14" :=
  C7_numeric_successor parseIPv6Unspecified 10 0 0 255 "10.0.0.0/16"
    { IP := [10, 0, 0, 0], Mask := [255, 255, 0, 0] } "10.0.1.0" none
    (by decide) (by decide) (by decide) (by decide) (by decide) (by decide) (by decide)

/-- C7 as stated fails at 255.255.255.255: the bytes of the address are held
in 16 bytes, the carry of the increment runs past the four IPv4 octets into
the twelve bytes in front of them, and under the CIDR `::/0`, which includes
the result, `incrementIP` returns the IPv6 text `::1:0:0:0`, not the address
0.0.0.0 that the four octets wrap around to. -/
theorem C7_broadcast_counterexample :
    incrementIP parseIPv6Unspecified (dotted 255 255 255 255) "::/0"
      = .ok ("::1:0:0:0", none) ∧
    dottedOfValue ((ipv4Value 255 255 255 255 + 1) % 4294967296) = "0.0.0.0" ∧
    ("::1:0:0:0" : String) ≠ dottedOfValue ((ipv4Value 255 255 255 255 + 1) % 4294967296) := by
  decide

/-- C8, as the code has it: for a dotted IPv4 address `a.b.c.d` other than
255.255.255.255 and a CIDR text that parses to the network `n`, `incrementIP`
ends in `log.Fatal` exactly when `n` does not include the address whose number
is one more, and otherwise returns the dotted text of that address with no
error.  Under 10.0.0.0/24, the call on 10.0.0.254 returns 10.0.0.255 and the
call on 10.0.0.255, whose result would be 10.0.1.0, ends in `log.Fatal`. -/
theorem C8_subnet_violation (p6 : List Char → List Nat) (a b c d : Nat) (cidr : String)
    (n : IPNet) (ha : a < 256) (hb : b < 256) (hc : c < 256) (hd : d < 256)
    (hmax : ipv4Value a b c d + 1 < 4294967296) (hn : ParseCIDR p6 cidr = some n) :
    ((∃ msg, incrementIP p6 (dotted a b c d) cidr = .fatal msg) ↔
      Contains n (ipv4OfValue (ipv4Value a b c d + 1)) = false) ∧
    (Contains n (ipv4OfValue (ipv4Value a b c d + 1)) = true →
      incrementIP p6 (dotted a b c d) cidr
        = .ok (dottedOfValue (ipv4Value a b c d + 1), none)) ∧
    (incrementIP parseIPv6Unspecified "10.0.0.254" "10.0.0.0/24" = .ok ("10.0.0.255", none) ∧
      incrementIP parseIPv6Unspecified "10.0.0.255" "10.0.0.0/24"
        = .fatal "[GNB][CONFIG] gNB IP Address is not in N2/N3 subnet" ∧
      dottedOfValue (ipv4Value 10 0 0 255 + 1) = "10.0.1.0") := by
  have h := incrementIP_dotted p6 a b c d cidr n ha hb hc hd hmax hn
  refine ⟨?_, ?_, by decide, by decide, by decide⟩
  · cases hcon : Contains n (ipv4OfValue (ipv4Value a b c d + 1)) with
    | false =>
      rw [h, hcon]
      simp
    | true =>
      rw [h, hcon]
      simp
  · intro hcon
    rw [h, hcon]
    simp

/-- C8 at 10.0.0.255 under 10.0.0.0/24: the next address 10.0.1.0 is outside
the network and the call ends in `log.Fatal`. -/
theorem C8_subnet_violation_witness :
    ∃ msg, incrementIP parseIPv6Unspecified (dotted 10 0 0 255) "10.0.0.0/24" = .fatal msg :=
  (C8_subnet_violation parseIPv6Unspecified 10 0 0 255 "10.0.0.0/24"
    { IP := [10, 0, 0, 0], Mask := [255, 255, 255, 0] }
    (by decide) (by decide) (by decide) (by decide) (by decide) (by decide)).1.2 (by decide)

/-- C8 as stated fails at 255.255.255.255 under 0.0.0.0/0: the address that
the four octets wrap around to, 0.0.0.0, is included in the network, yet
`incrementIP` ends in `log.Fatal`, the carry having run into the bytes in
front of the four octets. -/
theorem C8_broadcast_counterexample :
    ParseCIDR parseIPv6Unspecified "0.0.0.0/0" = some { IP := [0, 0, 0, 0], Mask := [0, 0, 0, 0] } ∧
    Contains { IP := [0, 0, 0, 0], Mask := [0, 0, 0, 0] }
      (ipv4OfValue ((ipv4Value 255 255 255 255 + 1) % 4294967296)) = true ∧
    incrementIP parseIPv6Unspecified (dotted 255 255 255 255) "0.0.0.0/0"
      = .fatal "[GNB][CONFIG] gNB IP Address is not in N2/N3 subnet" := by
  decide

/-! ## Station addresses (C9) -/

theorem ipv4Value_octets (v : Nat) (h : v < 4294967296) :
    ipv4Value (v / 16777216 % 256) (v / 65536 % 256) (v / 256 % 256) (v % 256) = v := by
  unfold ipv4Value
  omega

theorem ParseCIDR_any (p6 : List Char → List Nat) :
    ParseCIDR p6 "0.0.0.0/0" = some { IP := [0, 0, 0, 0], Mask := [0, 0, 0, 0] } := by
  rfl

theorem Contains_any (v : Nat) :
    Contains { IP := [0, 0, 0, 0], Mask := [0, 0, 0, 0] } (ipv4OfValue v) = true := by
  simp [Contains, networkNumberAndMask, To4, ipv4OfValue, IPv4, v4InV6Head, containsLoop]

/-- Under `0.0.0.0/0`, as in the station loop, `incrementIP` takes the dotted
text of the address numbered `v` to that of the address numbered `v + 1`. -/
theorem incrementIP_any (p6 : List Char → List Nat) (v : Nat) (h : v + 1 < 4294967296) :
    incrementIP p6 (dottedOfValue v) "0.0.0.0/0" = .ok (dottedOfValue (v + 1), none) := by
  have h1 := incrementIP_dotted p6 (v / 16777216 % 256) (v / 65536 % 256) (v / 256 % 256)
    (v % 256) "0.0.0.0/0" _ (Nat.mod_lt _ (by norm_num)) (Nat.mod_lt _ (by norm_num))
    (Nat.mod_lt _ (by norm_num)) (Nat.mod_lt _ (by norm_num))
    (by rw [ipv4Value_octets v (by omega)]; exact h) (ParseCIDR_any p6)
  rw [ipv4Value_octets v (by omega), Contains_any, if_pos rfl] at h1
  exact h1

/-- The station loop advances the dotted address numbered `v` to the one
numbered `v + t`, as long as that is an IPv4 address. -/
theorem advance_dotted (p6 : List Char → List Nat) :
    ∀ (t v : Nat), v + t < 4294967296 →
      advance p6 t (dottedOfValue v) = some (dottedOfValue (v + t)) := by
  intro t
  induction t with
  | zero => intro v _; rfl
  | succ t ih =>
    intro v h
    rw [advance, incrementIP_any p6 v (by omega)]
    dsimp only
    rw [ih (v + 1) (by omega), show v + 1 + t = v + (t + 1) by omega]

/-- The stations of a run when the advances of the two base addresses return. -/
theorem run_stations_of_advances (P : Params) (E : Env) (budget : Nat) (cfg : Config)
    (hp : preflight P = none) (hc : E.config = some cfg)
    (hadv : ∀ t, t < (numGnb P).toNat →
      advance E.parseIPv6 t cfg.ControlIfIp ≠ none ∧ advance E.parseIPv6 t cfg.DataIfIp ≠ none) :
    stations (TestMultiUesInQueue P E budget).trace
      = (List.range (numGnb P).toNat).map (fun t => (t + 1,
          stationConfig cfg (E.gnbIdGenerator ((t + 1 : Nat) : Int))
            ((advance E.parseIPv6 t cfg.ControlIfIp).getD "")
            ((advance E.parseIPv6 t cfg.DataIfIp).getD ""))) := by
  have h1 := buildGnbs_stations E (numGnb P).toNat 1 (enterStations cfg) rfl hadv
  rw [run_stations P E budget cfg hp hc, h1]
  show [] ++ _ = _
  rw [List.nil_append]
  apply List.map_congr_left
  intro t _
  rw [Nat.add_comm 1 t]
  rfl

theorem numGnb_count (P : Params) (hn : 0 ≤ P.numUes) :
    (((numGnb P).toNat : Nat) : Int) = (if P.dedicatedGnb then P.numUes else 1) := by
  have hg : 0 ≤ numGnb P := by
    unfold numGnb
    split <;> omega
  rw [Int.toNat_of_nonneg hg]
  rfl

/-- C9: take a run that passed the pre-flight checks and read the
configuration `cfg`, with `numUes ≥ 0`.  (1) If the calls of `incrementIP` that
advance the two base addresses up to the last station return, the number of
stations started is `numUes` when `dedicatedGnb` is set and 1 otherwise, and
for every `t` below that number the station started in position `t + 1` has
the identity `gnbIdGenerator(t + 1)`, the control-plane address of `cfg`
advanced `t` times by `incrementIP` and the data-plane address of `cfg`
advanced `t` times (the first station has the base addresses themselves).
(2) In particular, when the base addresses are the dotted IPv4 addresses
numbered `v2` and `v3` and the addresses up to the last station are IPv4
addresses, that station has the addresses numbered `v2 + t` and `v3 + t`:
consecutive stations use consecutive addresses. -/
theorem C9_station_construction (P : Params) (E : Env) (budget : Nat) (cfg : Config)
    (hp : preflight P = none) (hc : E.config = some cfg) (hn : 0 ≤ P.numUes) :
    ((∀ t, t < (numGnb P).toNat →
        advance E.parseIPv6 t cfg.ControlIfIp ≠ none ∧
        advance E.parseIPv6 t cfg.DataIfIp ≠ none) →
      ((stations (TestMultiUesInQueue P E budget).trace).length : Int)
        = (if P.dedicatedGnb then P.numUes else 1) ∧
      stations (TestMultiUesInQueue P E budget).trace
        = (List.range (numGnb P).toNat).map (fun t => (t + 1,
            stationConfig cfg (E.gnbIdGenerator ((t + 1 : Nat) : Int))
              ((advance E.parseIPv6 t cfg.ControlIfIp).getD "")
              ((advance E.parseIPv6 t cfg.DataIfIp).getD "")))) ∧
    (∀ v2 v3 : Nat, cfg.ControlIfIp = dottedOfValue v2 → cfg.DataIfIp = dottedOfValue v3 →
      v2 + (numGnb P).toNat ≤ 4294967296 → v3 + (numGnb P).toNat ≤ 4294967296 →
      ((stations (TestMultiUesInQueue P E budget).trace).length : Int)
        = (if P.dedicatedGnb then P.numUes else 1) ∧
      stations (TestMultiUesInQueue P E budget).trace
        = (List.range (numGnb P).toNat).map (fun t => (t + 1,
            stationConfig cfg (E.gnbIdGenerator ((t + 1 : Nat) : Int))
              (dottedOfValue (v2 + t)) (dottedOfValue (v3 + t))))) := by
  constructor
  · intro hadv
    have h2 := run_stations_of_advances P E budget cfg hp hc hadv
    refine ⟨?_, h2⟩
    rw [h2, List.length_map, List.length_range]
    exact numGnb_count P hn
  · intro v2 v3 h2 h3 hb2 hb3
    have hadv : ∀ t, t < (numGnb P).toNat →
        advance E.parseIPv6 t cfg.ControlIfIp ≠ none ∧
        advance E.parseIPv6 t cfg.DataIfIp ≠ none := by
      intro t ht
      rw [h2, h3, advance_dotted E.parseIPv6 t v2 (by omega),
        advance_dotted E.parseIPv6 t v3 (by omega)]
      simp
    have hst := run_stations_of_advances P E budget cfg hp hc hadv
    have hst2 : stations (TestMultiUesInQueue P E budget).trace
        = (List.range (numGnb P).toNat).map (fun t => (t + 1,
            stationConfig cfg (E.gnbIdGenerator ((t + 1 : Nat) : Int))
              (dottedOfValue (v2 + t)) (dottedOfValue (v3 + t)))) := by
      rw [hst]
      apply List.map_congr_left
      intro t ht
      have htn : t < (numGnb P).toNat := List.mem_range.1 ht
      rw [h2, h3, advance_dotted E.parseIPv6 t v2 (by omega),
        advance_dotted E.parseIPv6 t v3 (by omega)]
      rfl
    refine ⟨?_, hst2⟩
    rw [hst2, List.length_map, List.length_range]
    exact numGnb_count P hn

/-- C9 at three dedicated stations from the base addresses `10.0.0.5` and
`10.1.0.5`. -/
theorem C9_station_construction_witness :
    stations (TestMultiUesInQueue ⟨3, true, true, false, 500, 0, 1⟩ (sampleEnv []) 1).trace
      = [(1, stationConfig sampleConfig "1" "10.0.0.5" "10.1.0.5"),
         (2, stationConfig sampleConfig "2" "10.0.0.6" "10.1.0.6"),
         (3, stationConfig sampleConfig "3" "10.0.0.7" "10.1.0.7")] := by
  have h := ((C9_station_construction ⟨3, true, true, false, 500, 0, 1⟩ (sampleEnv []) 1
    sampleConfig (by decide) rfl (by decide)).1
    (by intro t ht; have ht3 : t < 3 := ht; interval_cases t <;> decide)).2
  rw [h]
  decide

end PacketRusher
